import Mathlib

/-!
# CHIP-8 interpreter (`chip8.go`): machine state, loader and `step`

Shallow embedding of `initSystem` and `step`.

* Fixed-width Go integers (`uint8`, `uint16`) are natural numbers; every
  operation that can overflow carries its explicit `% 256` / `% 65536`.
  `WellTyped` records the ranges the Go types guarantee.
* Go arrays (`memory`, `reg`, `stack`, `display`) are total functions on
  `Nat`; an index expression that Go checks at run time (and on which it
  panics when out of range) is guarded explicitly, and a panic is the result
  `none`.
* `rand.Uint32()` is an extra argument `rnd` of `step`.
-/

namespace Emulator

/-! ## Data model -/

/-- Machine state, `type chip8 struct`. -/
structure Chip8 where
  /-- `memory [4096]uint8` -/
  memory : Nat → Nat
  /-- `reg [16]uint8` -/
  reg : Nat → Nat
  /-- `index_reg uint16` -/
  index_reg : Nat
  /-- `pc uint16` -/
  pc : Nat
  /-- `sp uint8` -/
  sp : Nat
  /-- `stack [16]uint16` -/
  stack : Nat → Nat
  /-- `display [32][64]bool`, indexed row then column -/
  display : Nat → Nat → Bool
  /-- `keypad uint16` -/
  keypad : Nat
  /-- `delay_timer uint8` -/
  delay_timer : Nat
  /-- `sound_timer uint8` -/
  sound_timer : Nat

/-- Array element assignment `a[i] = v`. -/
def setAt {α : Type} (a : Nat → α) (i : Nat) (v : α) : Nat → α :=
  fun j => if j = i then v else a j

/-- Pixel assignment `display[y][x] = v`. -/
def setPixel (d : Nat → Nat → Bool) (y x : Nat) (v : Bool) : Nat → Nat → Bool :=
  setAt d y (setAt (d y) x v)

/-- The ranges of the Go field types: what every value of `chip8` satisfies. -/
structure WellTyped (chip : Chip8) : Prop where
  memory_lt : ∀ i, chip.memory i < 256
  reg_lt : ∀ i, chip.reg i < 256
  index_reg_lt : chip.index_reg < 65536
  pc_lt : chip.pc < 65536
  sp_lt : chip.sp < 256
  stack_lt : ∀ i, chip.stack i < 65536
  keypad_lt : chip.keypad < 65536
  delay_timer_lt : chip.delay_timer < 256
  sound_timer_lt : chip.sound_timer < 256

/-- The built-in glyph table, `var font_set`. -/
def font_set : List Nat := [
  0xF0, 0x90, 0x90, 0x90, 0xF0, -- 0
  0x20, 0x60, 0x20, 0x20, 0x70, -- 1
  0xF0, 0x10, 0xF0, 0x80, 0xF0, -- 2
  0xF0, 0x10, 0xF0, 0x10, 0xF0, -- 3
  0x90, 0x90, 0xF0, 0x10, 0x10, -- 4
  0xF0, 0x80, 0xF0, 0x10, 0xF0, -- 5
  0xF0, 0x80, 0xF0, 0x90, 0xF0, -- 6
  0xF0, 0x10, 0x20, 0x40, 0x40, -- 7
  0xF0, 0x90, 0xF0, 0x90, 0xF0, -- 8
  0xF0, 0x90, 0xF0, 0x10, 0xF0, -- 9
  0xF0, 0x90, 0xF0, 0x90, 0x90, -- A
  0xE0, 0x90, 0xE0, 0x90, 0xE0, -- B
  0xF0, 0x80, 0x80, 0x80, 0xF0, -- C
  0xE0, 0x90, 0x90, 0x90, 0xE0, -- D
  0xF0, 0x80, 0xF0, 0x80, 0xF0, -- E
  0xF0, 0x80, 0xF0, 0x80, 0x80  -- F
]

/-- The zero value `chip8{}`. -/
def zeroChip : Chip8 where
  memory := fun _ => 0
  reg := fun _ => 0
  index_reg := 0
  pc := 0
  sp := 0
  stack := fun _ => 0
  display := fun _ _ => false
  keypad := 0
  delay_timer := 0
  sound_timer := 0

/-! ## Loader -/

/-- The loop `for i, b := range bytes { memory[base + i] = b }`, entered at
index `i`; `none` when an index leaves `memory` (Go panics). -/
def storeBytes (base : Nat) : Nat → List Nat → (Nat → Nat) → Option (Nat → Nat)
  | _, [], memory => some memory
  | i, b :: bs, memory =>
    if base + i < 4096 then storeBytes base (i + 1) bs (setAt memory (base + i) b)
    else none

/-- Loader `initSystem`, taking the bytes read from the ROM file (the empty
list when the file cannot be read, as `ioutil.ReadFile` then returns). -/
def initSystem (rom_bytes : List Nat) : Option Chip8 :=
  let ret := zeroChip
  -- load fonts and rom into memory
  match storeBytes 0 0 font_set ret.memory with
  | none => none
  | some m1 =>
    -- program memory starts at 0x200
    match storeBytes 0x200 0 rom_bytes m1 with
    | none => none
    | some m2 => some { ret with memory := m2, pc := 0x200 }

/-! ## Interpreter -/

/-- Integer of a boolean, `sdl.Btoi`. -/
def Btoi (b : Bool) : Nat := if b then 1 else 0

/-- Number of set bits among bits `0 .. n-1`. -/
def onesBelow : Nat → Nat → Nat
  | 0, _ => 0
  | n + 1, x => Btoi (x.testBit n) + onesBelow n x

/-- Population count of a `uint16`, `bits.OnesCount16`. -/
def OnesCount16 (x : Nat) : Nat := onesBelow 16 x

/-- One more than the highest set bit among bits `0 .. n-1`, or 0. -/
def lenBelow : Nat → Nat → Nat
  | 0, _ => 0
  | n + 1, x => if x.testBit n then n + 1 else lenBelow n x

/-- Minimum number of bits representing a `uint16`, `bits.Len16`. -/
def Len16 (x : Nat) : Nat := lenBelow 16 x

/-- Body of the inner draw loop for column offset `i`: XOR one sprite bit
into the display and accumulate the collision flag. -/
def drawPixel (s y x_min i : Nat) (chip : Chip8) : Chip8 :=
  let pixel_prev := chip.display (y % 32) ((x_min + i) % 64)
  let pixel := pixel_prev != (((s >>> (7 - i)) &&& 0x1) != 0)
  { chip with
    display := setPixel chip.display (y % 32) ((x_min + i) % 64) pixel
    reg := setAt chip.reg 0xF ((chip.reg 0xF ||| Btoi (!pixel && pixel_prev)) % 256) }

/-- Inner draw loop `for i := ...; i < 8; i++`, with `n` iterations left. -/
def drawRow (s y x_min : Nat) : Nat → Nat → Chip8 → Chip8
  | 0, _, chip => chip
  | n + 1, i, chip => drawRow s y x_min n (i + 1) (drawPixel s y x_min i chip)

/-- Outer draw loop `for y := ...; y < y_min + N; y++`, with `n` iterations
left; `none` when the sprite row lies outside `memory`. -/
def drawRows (x_min y_min : Nat) : Nat → Nat → Chip8 → Option Chip8
  | 0, _, chip => some chip
  | n + 1, y, chip =>
    if chip.index_reg + (y - y_min) < 4096 then
      let s := chip.memory (chip.index_reg + (y - y_min))
      drawRows x_min y_min n (y + 1) (drawRow s y x_min 8 0 chip)
    else none

/-- Case `0xD`: draw a sprite. -/
def drawSprite (chip : Chip8) (opcode X Y : Nat) : Option Chip8 :=
  let chip := { chip with reg := setAt chip.reg 0xF 0 }
  let x_min := chip.reg X
  let y_min := chip.reg Y
  drawRows x_min y_min (opcode &&& 0xF) y_min chip

/-- Loop of `FX55`, `for i = 0; i <= X; i++ { memory[index_reg + i] = reg[i] }`,
with `n` iterations left. -/
def storeRegs : Nat → Nat → Chip8 → Option Chip8
  | 0, _, chip => some chip
  | n + 1, i, chip =>
    if (chip.index_reg + i) % 65536 < 4096 then
      storeRegs n ((i + 1) % 65536)
        { chip with memory := setAt chip.memory ((chip.index_reg + i) % 65536) (chip.reg i) }
    else none

/-- Loop of `FX65`, `for i = 0; i <= X; i++ { reg[i] = memory[index_reg + i] }`,
with `n` iterations left. -/
def loadRegs : Nat → Nat → Chip8 → Option Chip8
  | 0, _, chip => some chip
  | n + 1, i, chip =>
    if (chip.index_reg + i) % 65536 < 4096 then
      loadRegs n ((i + 1) % 65536)
        { chip with reg := setAt chip.reg i (chip.memory ((chip.index_reg + i) % 65536)) }
    else none

/-- Instruction fetch: the big-endian opcode at `pc`, `none` when `pc` or
`pc + 1` lies outside `memory`. -/
def fetch (chip : Chip8) : Option Nat :=
  if chip.pc < 4096 ∧ (chip.pc + 1) % 65536 < 4096 then
    some (((chip.memory chip.pc <<< 8) % 65536) ||| chip.memory ((chip.pc + 1) % 65536))
  else none

/-- The dispatch `switch opcode >> 12` of `step`, on the state whose `pc` is
already advanced. -/
def execute (chip : Chip8) (opcode rnd : Nat) : Option Chip8 :=
  let X := (opcode &&& 0x0F00) >>> 8
  let Y := (opcode &&& 0x00F0) >>> 4
  let NN := (opcode &&& 0x00FF) % 256
  let NNN := opcode &&& 0x0FFF
  match opcode >>> 12 with
  | 0x0 =>
    if opcode = 0xE0 then -- clear display
      some { chip with display := fun y x => if y < 32 ∧ x < 64 then false else chip.display y x }
    else if opcode = 0xEE then -- return from subroutine
      if chip.sp < 16 then
        some { chip with pc := chip.stack chip.sp, sp := (chip.sp + 255) % 256 }
      else none
    else some chip
  | 0x1 => some { chip with pc := NNN }
  | 0x2 => -- call the subroutine at NNN
    let sp := (chip.sp + 1) % 256
    if sp < 16 then
      some { chip with sp := sp, stack := setAt chip.stack sp chip.pc, pc := NNN }
    else none
  | 0x3 =>
    if chip.reg X = NN then some { chip with pc := (chip.pc + 2) % 65536 } else some chip
  | 0x4 =>
    if chip.reg X ≠ NN then some { chip with pc := (chip.pc + 2) % 65536 } else some chip
  | 0x5 =>
    if chip.reg X = chip.reg Y then some { chip with pc := (chip.pc + 2) % 65536 }
    else some chip
  | 0x6 => some { chip with reg := setAt chip.reg X NN }
  | 0x7 => some { chip with reg := setAt chip.reg X ((chip.reg X + NN) % 256) }
  | 0x8 =>
    match opcode &&& 0xF with
    | 0x0 => some { chip with reg := setAt chip.reg X (chip.reg Y) }
    | 0x1 => some { chip with reg := setAt chip.reg X (chip.reg X ||| chip.reg Y) }
    | 0x2 => some { chip with reg := setAt chip.reg X (chip.reg X &&& chip.reg Y) }
    | 0x3 => some { chip with reg := setAt chip.reg X (chip.reg X ^^^ chip.reg Y) }
    | 0x4 =>
      let reg := setAt chip.reg 0xF
        (Btoi (decide ((chip.reg X + chip.reg Y) % 65536 > 0xFF)))
      some { chip with reg := setAt reg X ((reg X + reg Y) % 256) }
    | 0x5 =>
      let reg := setAt chip.reg 0xF (Btoi (decide (chip.reg X > chip.reg Y)))
      some { chip with reg := setAt reg X ((reg X + 256 - reg Y) % 256) }
    | 0x6 =>
      let reg := setAt chip.reg 0xF (chip.reg X &&& 0x1)
      some { chip with reg := setAt reg X (reg X >>> 1) }
    | 0x7 =>
      let reg := setAt chip.reg 0xF (Btoi (decide (chip.reg Y > chip.reg X)))
      some { chip with reg := setAt reg X ((reg Y + 256 - reg X) % 256) }
    | 0xE =>
      let reg := setAt chip.reg 0xF (chip.reg X >>> 7)
      some { chip with reg := setAt reg X ((reg X <<< 1) % 256) }
    | _ => some chip
  | 0x9 =>
    if chip.reg X ≠ chip.reg Y then some { chip with pc := (chip.pc + 2) % 65536 }
    else some chip
  | 0xA => some { chip with index_reg := NNN }
  | 0xB => some { chip with pc := (chip.reg 0 + NNN) % 65536 }
  | 0xC => some { chip with reg := setAt chip.reg X ((rnd % 256) &&& NN) }
  | 0xD => drawSprite chip opcode X Y
  | 0xE =>
    let key := (chip.keypad >>> chip.reg X) &&& 0x1
    if (opcode &&& 0xFF = 0x9E ∧ key ≠ 0) ∨ (opcode &&& 0xFF = 0xA1 ∧ key ≠ 0) then
      some { chip with pc := (chip.pc + 2) % 65536 }
    else some chip
  | 0xF =>
    match opcode &&& 0xFF with
    | 0x07 => some { chip with reg := setAt chip.reg X chip.delay_timer }
    | 0x0A =>
      let chip := { chip with pc := (chip.pc + 65536 - 2) % 65536 }
      if OnesCount16 chip.keypad > 0 then
        -- `Len16` is at least 1 here, so the subtraction is exact
        some { chip with
          reg := setAt chip.reg X ((Len16 chip.keypad - 1) % 256)
          pc := (chip.pc + 2) % 65536 }
      else some chip
    | 0x15 => some { chip with delay_timer := chip.reg X }
    | 0x18 => some { chip with sound_timer := chip.reg X }
    | 0x1E => some { chip with index_reg := (chip.index_reg + chip.reg X) % 65536 }
    | 0x29 => some { chip with index_reg := (chip.reg X * 5) % 65536 }
    | 0x33 =>
      if chip.index_reg < 4096 ∧ (chip.index_reg + 1) % 65536 < 4096
          ∧ (chip.index_reg + 2) % 65536 < 4096 then
        let m1 := setAt chip.memory chip.index_reg (chip.reg X / 100)
        let m2 := setAt m1 ((chip.index_reg + 1) % 65536) ((chip.reg X / 10) % 10)
        let m3 := setAt m2 ((chip.index_reg + 2) % 65536) (chip.reg X % 10)
        some { chip with memory := m3 }
      else none
    | 0x55 => storeRegs (X + 1) 0 chip
    | 0x65 => loadRegs (X + 1) 0 chip
    | _ => some chip
  | _ => some chip

/-- The timer block at the end of `step`. -/
def tickTimers (chip : Chip8) (inc_timer : Bool) : Chip8 :=
  if inc_timer then
    let chip :=
      if chip.sound_timer > 0 then { chip with sound_timer := chip.sound_timer - 1 } else chip
    if chip.delay_timer > 0 then { chip with delay_timer := chip.delay_timer - 1 } else chip
  else chip

/-- One interpreter cycle, `step`: the new state and the returned flag, or
`none` when the Go code panics on an out-of-range array index. -/
def step (chip : Chip8) (inc_timer : Bool) (rnd : Nat) : Option (Chip8 × Bool) :=
  match fetch chip with
  | none => none
  | some opcode =>
    let chip := { chip with pc := (chip.pc + 2) % 65536 }
    match execute chip opcode rnd with
    | none => none
    | some chip => some (tickTimers chip inc_timer, opcode >>> 12 == 0xD)

/-- Successive cycles, one per element of `inputs` (tick flag and random
value of that cycle); `none` as soon as one cycle panics. -/
def run : Chip8 → List (Bool × Nat) → Option Chip8
  | chip, [] => some chip
  | chip, (inc_timer, rnd) :: rest =>
    match step chip inc_timer rnd with
    | none => none
    | some (chip, _) => run chip rest

/-- The opcodes executed by the successful cycles of `run`, in order. -/
def executed : Chip8 → List (Bool × Nat) → List Nat
  | _, [] => []
  | chip, (inc_timer, rnd) :: rest =>
    match fetch chip, step chip inc_timer rnd with
    | some opcode, some (chip, _) => opcode :: executed chip rest
    | _, _ => []

/-! ## Specification vocabulary -/

/-- What a draw leaves alone: `res` differs from `chip` at most in the display
and in `reg[15]`. -/
structure DrawFrame (chip res : Chip8) : Prop where
  memory_eq : res.memory = chip.memory
  index_reg_eq : res.index_reg = chip.index_reg
  pc_eq : res.pc = chip.pc
  sp_eq : res.sp = chip.sp
  stack_eq : res.stack = chip.stack
  keypad_eq : res.keypad = chip.keypad
  delay_timer_eq : res.delay_timer = chip.delay_timer
  sound_timer_eq : res.sound_timer = chip.sound_timer
  reg_eq : ∀ j, j ≠ 15 → res.reg j = chip.reg j

/-- A state about to execute `D124` twice: a sprite of 4 rows `F0` at
`index_reg = 0x300`, drawn at column `reg[1] = 60`, row `reg[2] = 30`. -/
def drawDemo : Chip8 :=
  { zeroChip with
    memory := fun j =>
      if j = 0x200 ∨ j = 0x202 then 0xD1
      else if j = 0x201 ∨ j = 0x203 then 0x24
      else if 0x300 ≤ j ∧ j < 0x304 then 0xF0 else 0
    reg := fun j => if j = 1 then 60 else if j = 2 then 30 else 0
    index_reg := 0x300
    pc := 0x200 }

/-- A state about to execute `2300` (call the subroutine at `0x300`), where the
word at `0x300` is `00EE` (return). -/
def callDemo : Chip8 :=
  { zeroChip with
    memory := fun j =>
      if j = 0x200 then 0x23 else if j = 0x201 then 0x00
      else if j = 0x300 then 0x00 else if j = 0x301 then 0xEE else 0
    pc := 0x200 }

/-- A state about to execute the opcode with bytes `hi`, `lo`, where `reg[1]`
holds `r1` and `reg[15]` holds `r15`. -/
def regDemo (hi lo r1 r15 : Nat) : Chip8 :=
  { zeroChip with
    memory := fun j => if j = 0x200 then hi else if j = 0x201 then lo else 0
    reg := fun j => if j = 1 then r1 else if j = 15 then r15 else 0
    pc := 0x200 }

/-- Number of cycles of a run called with `inc_timer = true`. -/
def ticks (inputs : List (Bool × Nat)) : Nat := (inputs.filter (fun p => p.1)).length

/-- A state running `6105 7103 1200` in a loop, with `delay_timer = 60` and
`sound_timer = 1`. -/
def timerDemo : Chip8 :=
  { zeroChip with
    memory := fun j =>
      if j = 0x200 then 0x61 else if j = 0x201 then 0x05
      else if j = 0x202 then 0x71 else if j = 0x203 then 0x03
      else if j = 0x204 then 0x12 else 0
    pc := 0x200
    delay_timer := 60
    sound_timer := 1 }

/-- The program `6105 7103 F033 F265`. -/
def bcdProgram : List Nat := [0x61, 0x05, 0x71, 0x03, 0xF0, 0x33, 0xF2, 0x65]

/-- The program `6105 7103 F133 F265`, whose third instruction converts
`reg[1]`. -/
def bcdProgramReg1 : List Nat := [0x61, 0x05, 0x71, 0x03, 0xF1, 0x33, 0xF2, 0x65]

/-- The state `regDemo hi lo r1 0` with the given keypad mask. -/
def keyDemo (hi lo r1 keypad : Nat) : Chip8 :=
  { regDemo hi lo r1 0 with keypad := keypad }

/-- The opcodes that match no row of the semantics table, as the specification
lists them: `0NNN` other than `00E0` and `00EE`; `5XYk` and `9XYk` with `k ≠ 0`;
`8XYk` with `k` in 8..D or F; `EXkk` other than `9E`, `A1`; `FXkk` other than
`07, 0A, 15, 18, 1E, 29, 33, 55, 65`. -/
def noTableRow (opcode : Nat) : Prop :=
  (opcode / 4096 = 0x0 ∧ opcode ≠ 0x00E0 ∧ opcode ≠ 0x00EE) ∨
  ((opcode / 4096 = 0x5 ∨ opcode / 4096 = 0x9) ∧ opcode % 16 ≠ 0) ∨
  (opcode / 4096 = 0x8 ∧
    (opcode % 16 = 0x8 ∨ opcode % 16 = 0x9 ∨ opcode % 16 = 0xA ∨ opcode % 16 = 0xB ∨
      opcode % 16 = 0xC ∨ opcode % 16 = 0xD ∨ opcode % 16 = 0xF)) ∨
  (opcode / 4096 = 0xE ∧ opcode % 256 ≠ 0x9E ∧ opcode % 256 ≠ 0xA1) ∨
  (opcode / 4096 = 0xF ∧ opcode % 256 ≠ 0x07 ∧ opcode % 256 ≠ 0x0A ∧ opcode % 256 ≠ 0x15 ∧
    opcode % 256 ≠ 0x18 ∧ opcode % 256 ≠ 0x1E ∧ opcode % 256 ≠ 0x29 ∧ opcode % 256 ≠ 0x33 ∧
    opcode % 256 ≠ 0x55 ∧ opcode % 256 ≠ 0x65)

/-- A state about to execute `00E0` with the diagonal pixels on and
`delay_timer = 2`. -/
def clearDemo : Chip8 :=
  { regDemo 0x00 0xE0 7 9 with
    display := fun y x => decide (y = x)
    delay_timer := 2 }

/-- A state about to execute `F255` then `F265`, with `index_reg = 0x300` and
registers 0..2 holding 11, 22, 33. -/
def storeDemo : Chip8 :=
  { zeroChip with
    memory := fun j =>
      if j = 0x200 then 0xF2 else if j = 0x201 then 0x55
      else if j = 0x202 then 0xF2 else if j = 0x203 then 0x65 else 0
    reg := fun j => if j = 0 then 11 else if j = 1 then 22 else if j = 2 then 33 else 0
    index_reg := 0x300
    pc := 0x200 }

/-! ## Basic facts: array assignment and opcode fields -/

theorem setAt_same {α : Type} (a : Nat → α) (i : Nat) (v : α) : setAt a i v i = v := by
  simp [setAt]

theorem setAt_other {α : Type} (a : Nat → α) (i j : Nat) (v : α) (h : j ≠ i) :
    setAt a i v j = a j := by
  simp [setAt, h]

theorem setAt_apply {α : Type} (a : Nat → α) (i j : Nat) (v : α) :
    setAt a i v j = if j = i then v else a j := rfl

theorem setPixel_apply (d : Nat → Nat → Bool) (y x R C : Nat) (v : Bool) :
    setPixel d y x v R C = if R = y ∧ C = x then v else d R C := by
  unfold setPixel setAt
  by_cases hR : R = y
  · subst hR
    by_cases hC : C = x <;> simp [hC]
  · simp [hR]

theorem shiftRight_and (a b i : Nat) : (a &&& b) >>> i = (a >>> i) &&& (b >>> i) := by
  apply Nat.eq_of_testBit_eq
  intro j
  simp only [Nat.testBit_shiftRight, Nat.testBit_and]

theorem opcode_family (opcode : Nat) : opcode >>> 12 = opcode / 4096 := by
  rw [Nat.shiftRight_eq_div_pow]

theorem opcode_NN (opcode : Nat) : opcode &&& 0xFF = opcode % 256 :=
  Nat.and_pow_two_sub_one_eq_mod opcode 8

theorem opcode_N (opcode : Nat) : opcode &&& 0xF = opcode % 16 :=
  Nat.and_pow_two_sub_one_eq_mod opcode 4

theorem opcode_NNN (opcode : Nat) : opcode &&& 0xFFF = opcode % 4096 :=
  Nat.and_pow_two_sub_one_eq_mod opcode 12

theorem opcode_X (opcode : Nat) : (opcode &&& 0x0F00) >>> 8 = opcode / 256 % 16 := by
  rw [shiftRight_and, Nat.shiftRight_eq_div_pow]
  exact Nat.and_pow_two_sub_one_eq_mod _ 4

theorem opcode_Y (opcode : Nat) : (opcode &&& 0x00F0) >>> 4 = opcode / 16 % 16 := by
  rw [shiftRight_and, Nat.shiftRight_eq_div_pow]
  exact Nat.and_pow_two_sub_one_eq_mod _ 4

/-! ## Loader -/

theorem storeBytes_spec (base : Nat) (bs : List Nat) :
    ∀ (i : Nat) (memory : Nat → Nat), base + i + bs.length ≤ 4096 →
      ∃ m, storeBytes base i bs memory = some m ∧
        ∀ j, m j = if base + i ≤ j ∧ j < base + i + bs.length
          then bs.getD (j - (base + i)) 0 else memory j := by
  induction bs with
  | nil =>
    intro i memory _
    refine ⟨memory, rfl, fun j => ?_⟩
    have : ¬ (base + i ≤ j ∧ j < base + i + ([] : List Nat).length) := by
      simp only [List.length_nil]; omega
    rw [if_neg this]
  | cons b bs ih =>
    intro i memory hlen
    simp only [List.length_cons] at hlen
    obtain ⟨m, hm, hspec⟩ := ih (i + 1) (setAt memory (base + i) b) (by omega)
    have hin : base + i < 4096 := by omega
    refine ⟨m, by simp only [storeBytes, if_pos hin]; exact hm, fun j => ?_⟩
    rw [hspec j]
    simp only [List.length_cons]
    by_cases h1 : j = base + i
    · subst h1
      have hA : ¬ (base + (i + 1) ≤ base + i ∧ base + i < base + (i + 1) + bs.length) := by omega
      have hB : base + i ≤ base + i ∧ base + i < base + i + (bs.length + 1) := by omega
      rw [if_neg hA, if_pos hB, setAt_same]
      simp
    · by_cases h2 : base + (i + 1) ≤ j ∧ j < base + (i + 1) + bs.length
      · have hB : base + i ≤ j ∧ j < base + i + (bs.length + 1) := by omega
        have hk : j - (base + i) = (j - (base + (i + 1))) + 1 := by omega
        rw [if_pos h2, if_pos hB, hk, List.getD_cons_succ]
      · have hB : ¬ (base + i ≤ j ∧ j < base + i + (bs.length + 1)) := by omega
        rw [if_neg h2, if_neg hB, setAt_other _ _ _ _ h1]

theorem font_set_length : font_set.length = 80 := rfl

theorem initSystem_spec (rom_bytes : List Nat) (hlen : rom_bytes.length ≤ 3584) :
    ∃ m, initSystem rom_bytes = some { zeroChip with memory := m, pc := 0x200 } ∧
      ∀ j, m j =
        if 512 ≤ j ∧ j < 512 + rom_bytes.length then rom_bytes.getD (j - 512) 0
        else if j < 80 then font_set.getD j 0 else 0 := by
  obtain ⟨m1, h1, hs1⟩ := storeBytes_spec 0 font_set 0 zeroChip.memory
    (by rw [font_set_length]; omega)
  obtain ⟨m2, h2, hs2⟩ := storeBytes_spec 0x200 rom_bytes 0 m1 (by omega)
  refine ⟨m2, by simp only [initSystem, h1, h2], fun j => ?_⟩
  rw [hs2 j, hs1 j, font_set_length]
  simp only [Nat.add_zero, Nat.zero_add, Nat.zero_le, true_and, Nat.sub_zero]
  rfl

/-- C1. Loader: for a program of at most 3584 bytes, `initSystem` succeeds and
builds the state whose memory holds `font_set` at 0..79, the program at
512.., zero elsewhere, with `pc = 512` and every other field zero/false. -/
theorem initSystem_loads (rom_bytes : List Nat) (hlen : rom_bytes.length ≤ 3584) :
    ∃ s, initSystem rom_bytes = some s ∧
      (∀ i, i < 80 → font_set[i]? = some (s.memory i)) ∧
      (∀ i, i < rom_bytes.length → rom_bytes[i]? = some (s.memory (512 + i))) ∧
      (∀ j, 80 ≤ j → ¬ (512 ≤ j ∧ j < 512 + rom_bytes.length) → s.memory j = 0) ∧
      s.pc = 512 ∧
      (∀ i, s.reg i = 0) ∧ s.index_reg = 0 ∧ s.sp = 0 ∧ (∀ i, s.stack i = 0) ∧
      (∀ y x, s.display y x = false) ∧
      s.keypad = 0 ∧ s.delay_timer = 0 ∧ s.sound_timer = 0 := by
  obtain ⟨m, hm, hspec⟩ := initSystem_spec rom_bytes hlen
  refine ⟨_, hm, ?_, ?_, ?_, rfl, fun _ => rfl, rfl, rfl, fun _ => rfl, fun _ _ => rfl,
    rfl, rfl, rfl⟩
  · intro i hi
    have hA : ¬ (512 ≤ i ∧ i < 512 + rom_bytes.length) := by omega
    have hi2 : i < font_set.length := by rw [font_set_length]; exact hi
    show font_set[i]? = some (m i)
    rw [hspec i, if_neg hA, if_pos hi, List.getD_eq_getElem _ _ hi2, List.getElem?_eq_getElem hi2]
  · intro i hi
    have hA : 512 ≤ 512 + i ∧ 512 + i < 512 + rom_bytes.length := by omega
    show rom_bytes[i]? = some (m (512 + i))
    rw [hspec (512 + i), if_pos hA, Nat.add_sub_cancel_left, List.getD_eq_getElem _ _ hi,
      List.getElem?_eq_getElem hi]
  · intro j hj hA
    have hB : ¬ j < 80 := by omega
    show m j = 0
    rw [hspec j, if_neg hA, if_neg hB]

/-- Witness of C1 on the two-byte program `00 E0`. -/
theorem initSystem_loads_witness :
    ∃ s, initSystem [0x00, 0xE0] = some s ∧
      (∀ i, i < 80 → font_set[i]? = some (s.memory i)) ∧
      (∀ i, i < [0x00, 0xE0].length → [0x00, 0xE0][i]? = some (s.memory (512 + i))) ∧
      (∀ j, 80 ≤ j → ¬ (512 ≤ j ∧ j < 512 + [0x00, 0xE0].length) → s.memory j = 0) ∧
      s.pc = 512 ∧
      (∀ i, s.reg i = 0) ∧ s.index_reg = 0 ∧ s.sp = 0 ∧ (∀ i, s.stack i = 0) ∧
      (∀ y x, s.display y x = false) ∧
      s.keypad = 0 ∧ s.delay_timer = 0 ∧ s.sound_timer = 0 :=
  initSystem_loads [0x00, 0xE0] (by decide)

/-! ## Draw-sprite -/

theorem spriteBit_eq (s k : Nat) : (((s >>> k) &&& 0x1) != 0) = s.testBit k := by
  simp only [Nat.testBit, Nat.and_comm]

theorem flag_or (a : Nat) (b : Bool) (ha : a ≤ 1) :
    (a ||| Btoi b) % 256 ≤ 1 ∧ ((a ||| Btoi b) % 256 = 1 ↔ a = 1 ∨ b = true) := by
  interval_cases a <;> cases b <;> simp [Btoi]

theorem drawPixel_display (s y x_min i : Nat) (chip : Chip8) (R C : Nat) :
    (drawPixel s y x_min i chip).display R C =
      if R = y % 32 ∧ C = (x_min + i) % 64 then (chip.display R C != s.testBit (7 - i))
      else chip.display R C := by
  simp only [drawPixel, setPixel_apply, spriteBit_eq]
  split
  · next h => rw [h.1, h.2]
  · rfl

theorem drawPixel_flag (s y x_min i : Nat) (chip : Chip8) :
    (drawPixel s y x_min i chip).reg 15 =
      (chip.reg 15 ||| Btoi (chip.display (y % 32) ((x_min + i) % 64) && s.testBit (7 - i)))
        % 256 := by
  simp only [drawPixel, setAt_same, spriteBit_eq]
  cases chip.display (y % 32) ((x_min + i) % 64) <;> cases s.testBit (7 - i) <;> rfl

theorem drawPixel_reg (s y x_min i : Nat) (chip : Chip8) (j : Nat) (hj : j ≠ 15) :
    (drawPixel s y x_min i chip).reg j = chip.reg j := by
  simp only [drawPixel, setAt_other _ _ _ _ hj]

theorem DrawFrame.refl (chip : Chip8) : DrawFrame chip chip :=
  ⟨rfl, rfl, rfl, rfl, rfl, rfl, rfl, rfl, fun _ _ => rfl⟩

theorem DrawFrame.trans {a b c : Chip8} (h1 : DrawFrame a b) (h2 : DrawFrame b c) :
    DrawFrame a c :=
  ⟨h2.memory_eq.trans h1.memory_eq, h2.index_reg_eq.trans h1.index_reg_eq,
    h2.pc_eq.trans h1.pc_eq, h2.sp_eq.trans h1.sp_eq, h2.stack_eq.trans h1.stack_eq,
    h2.keypad_eq.trans h1.keypad_eq, h2.delay_timer_eq.trans h1.delay_timer_eq,
    h2.sound_timer_eq.trans h1.sound_timer_eq,
    fun j hj => (h2.reg_eq j hj).trans (h1.reg_eq j hj)⟩

theorem drawPixel_frame (s y x_min i : Nat) (chip : Chip8) :
    DrawFrame chip (drawPixel s y x_min i chip) :=
  ⟨rfl, rfl, rfl, rfl, rfl, rfl, rfl, rfl, fun j hj => drawPixel_reg s y x_min i chip j hj⟩

theorem drawRow_frame (s y x_min : Nat) :
    ∀ (n i : Nat) (chip : Chip8), DrawFrame chip (drawRow s y x_min n i chip) := by
  intro n
  induction n with
  | zero => intro i chip; exact DrawFrame.refl chip
  | succ n ih =>
    intro i chip
    exact (drawPixel_frame s y x_min i chip).trans (ih (i + 1) _)

theorem drawRow_display (s y x_min : Nat) :
    ∀ (n i : Nat) (chip : Chip8), i + n ≤ 64 → ∀ R C,
      ((drawRow s y x_min n i chip).display R C ≠ chip.display R C ↔
        (R = y % 32 ∧ ∃ c, i ≤ c ∧ c < i + n ∧ C = (x_min + c) % 64 ∧
          s.testBit (7 - c) = true)) := by
  intro n
  induction n with
  | zero =>
    intro i chip _ R C
    simp only [drawRow, ne_eq, not_true_eq_false, false_iff]
    rintro ⟨_, c, h1, h2, _⟩
    omega
  | succ n ih =>
    intro i chip hin R C
    have hih := ih (i + 1) (drawPixel s y x_min i chip) (by omega) R C
    have h1 := drawPixel_display s y x_min i chip R C
    show (drawRow s y x_min n (i + 1) (drawPixel s y x_min i chip)).display R C ≠ _ ↔ _
    by_cases hA : R = y % 32 ∧ C = (x_min + i) % 64
    · rw [if_pos hA] at h1
      have hno : ¬ (R = y % 32 ∧ ∃ c, i + 1 ≤ c ∧ c < i + 1 + n ∧ C = (x_min + c) % 64 ∧
          s.testBit (7 - c) = true) := by
        rintro ⟨_, c, hc1, hc2, hc3, _⟩
        have := hA.2
        omega
      have hd2 : (drawRow s y x_min n (i + 1) (drawPixel s y x_min i chip)).display R C =
          (drawPixel s y x_min i chip).display R C := by
        by_contra h
        exact hno (hih.mp h)
      rw [hd2, h1]
      constructor
      · intro h
        refine ⟨hA.1, i, le_refl i, by omega, hA.2, ?_⟩
        revert h
        cases chip.display R C <;> cases s.testBit (7 - i) <;> simp
      · rintro ⟨_, c, hc1, hc2, hc3, hc4⟩
        have hci : c = i := by
          have := hA.2
          omega
        subst hci
        rw [hc4]
        cases chip.display R C <;> simp
    · rw [if_neg hA] at h1
      rw [← h1, hih]
      constructor
      · rintro ⟨hR, c, hc1, hc2, hc3, hc4⟩
        exact ⟨hR, c, by omega, by omega, hc3, hc4⟩
      · rintro ⟨hR, c, hc1, hc2, hc3, hc4⟩
        have hci : c ≠ i := by
          rintro rfl
          exact hA ⟨hR, hc3⟩
        exact ⟨hR, c, by omega, by omega, hc3, hc4⟩

theorem drawRow_flag (s y x_min : Nat) :
    ∀ (n i : Nat) (chip : Chip8), i + n ≤ 64 → chip.reg 15 ≤ 1 →
      (drawRow s y x_min n i chip).reg 15 ≤ 1 ∧
      ((drawRow s y x_min n i chip).reg 15 = 1 ↔
        (chip.reg 15 = 1 ∨ ∃ c, i ≤ c ∧ c < i + n ∧
          chip.display (y % 32) ((x_min + c) % 64) = true ∧ s.testBit (7 - c) = true)) := by
  intro n
  induction n with
  | zero =>
    intro i chip _ h01
    refine ⟨h01, ?_⟩
    simp only [drawRow]
    constructor
    · intro h; exact Or.inl h
    · rintro (h | ⟨c, h1, h2, _⟩)
      · exact h
      · omega
  | succ n ih =>
    intro i chip hin h01
    have hp := flag_or (chip.reg 15)
      (chip.display (y % 32) ((x_min + i) % 64) && s.testBit (7 - i)) h01
    rw [← drawPixel_flag s y x_min i chip] at hp
    obtain ⟨hle, hiff⟩ := ih (i + 1) (drawPixel s y x_min i chip) (by omega) hp.1
    refine ⟨hle, ?_⟩
    show (drawRow s y x_min n (i + 1) (drawPixel s y x_min i chip)).reg 15 = 1 ↔ _
    have hother : ∀ c, i + 1 ≤ c → c < i + 1 + n →
        (drawPixel s y x_min i chip).display (y % 32) ((x_min + c) % 64) =
          chip.display (y % 32) ((x_min + c) % 64) := by
      intro c hc1 hc2
      rw [drawPixel_display, if_neg]
      rintro ⟨_, h⟩
      omega
    rw [hiff, hp.2, Bool.and_eq_true]
    constructor
    · rintro ((h | ⟨h1, h2⟩) | ⟨c, hc1, hc2, hc3, hc4⟩)
      · exact Or.inl h
      · exact Or.inr ⟨i, le_refl i, by omega, h1, h2⟩
      · rw [hother c hc1 hc2] at hc3
        exact Or.inr ⟨c, by omega, by omega, hc3, hc4⟩
    · rintro (h | ⟨c, hc1, hc2, hc3, hc4⟩)
      · exact Or.inl (Or.inl h)
      · by_cases hci : c = i
        · subst hci
          exact Or.inl (Or.inr ⟨hc3, hc4⟩)
        · refine Or.inr ⟨c, by omega, by omega, ?_, hc4⟩
          rw [hother c (by omega) (by omega)]
          exact hc3

theorem drawRows_spec (x_min y_min : Nat) :
    ∀ (n r0 : Nat) (chip : Chip8), r0 + n ≤ 32 → chip.index_reg + r0 + n ≤ 4096 →
      chip.reg 15 ≤ 1 →
      ∃ res, drawRows x_min y_min n (y_min + r0) chip = some res ∧ DrawFrame chip res ∧
        (∀ R C, res.display R C ≠ chip.display R C ↔
          ∃ r c, r0 ≤ r ∧ r < r0 + n ∧ c < 8 ∧ R = (y_min + r) % 32 ∧
            C = (x_min + c) % 64 ∧
            (chip.memory (chip.index_reg + r)).testBit (7 - c) = true) ∧
        res.reg 15 ≤ 1 ∧
        (res.reg 15 = 1 ↔
          (chip.reg 15 = 1 ∨ ∃ r c, r0 ≤ r ∧ r < r0 + n ∧ c < 8 ∧
            chip.display ((y_min + r) % 32) ((x_min + c) % 64) = true ∧
            (chip.memory (chip.index_reg + r)).testBit (7 - c) = true)) := by
  intro n
  induction n with
  | zero =>
    intro r0 chip _ _ h01
    refine ⟨chip, rfl, DrawFrame.refl chip, fun R C => ?_, h01, ?_⟩
    · simp only [ne_eq, not_true_eq_false, false_iff]
      rintro ⟨r, c, h1, h2, _⟩
      omega
    · constructor
      · intro h; exact Or.inl h
      · rintro (h | ⟨r, c, h1, h2, _⟩)
        · exact h
        · omega
  | succ n ih =>
    intro r0 chip hrow hmem h01
    have hsub : y_min + r0 - y_min = r0 := by omega
    have hin : chip.index_reg + (y_min + r0 - y_min) < 4096 := by rw [hsub]; omega
    have hfr := drawRow_frame (chip.memory (chip.index_reg + r0)) (y_min + r0) x_min 8 0 chip
    have hdisp := drawRow_display (chip.memory (chip.index_reg + r0)) (y_min + r0) x_min 8 0
      chip (by omega)
    have hflag := drawRow_flag (chip.memory (chip.index_reg + r0)) (y_min + r0) x_min 8 0
      chip (by omega) h01
    generalize hc1 : drawRow (chip.memory (chip.index_reg + r0)) (y_min + r0) x_min 8 0 chip = chip1
      at hfr hdisp hflag
    obtain ⟨res, hres, hfr2, hdisp2, hle2, hflag2⟩ := ih (r0 + 1) chip1
      (by omega) (by rw [hfr.index_reg_eq]; omega) hflag.1
    rw [hfr.memory_eq, hfr.index_reg_eq] at hdisp2 hflag2
    refine ⟨res, ?_, hfr.trans hfr2, fun R C => ?_, hle2, ?_⟩
    · simp only [drawRows, hsub]
      rw [if_pos (by omega), hc1]
      exact hres
    · by_cases hA : chip1.display R C ≠ chip.display R C
      · obtain ⟨hR, c, _, hc2, hc3, hc4⟩ := (hdisp R C).mp hA
        have hno : ¬ (res.display R C ≠ chip1.display R C) := by
          intro h
          obtain ⟨r, _, hr1, hr2, _, hr4, _⟩ := (hdisp2 R C).mp h
          omega
        have heq : res.display R C = chip1.display R C := by
          by_contra h
          exact hno h
        rw [heq]
        constructor
        · intro _
          exact ⟨r0, c, le_refl r0, by omega, by omega, hR, hc3, hc4⟩
        · intro _
          exact hA
      · have heq : chip1.display R C = chip.display R C := by
          by_contra h
          exact hA h
        rw [← heq, hdisp2 R C]
        constructor
        · rintro ⟨r, c, hr1, hr2, hc, hR, hC, hb⟩
          exact ⟨r, c, by omega, by omega, hc, hR, hC, hb⟩
        · rintro ⟨r, c, hr1, hr2, hc, hR, hC, hb⟩
          have hr : r ≠ r0 := by
            rintro rfl
            exact hA ((hdisp R C).mpr ⟨hR, c, Nat.zero_le c, by omega, hC, hb⟩)
          exact ⟨r, c, by omega, by omega, hc, hR, hC, hb⟩
    · have hother : ∀ r c, r0 + 1 ≤ r → r < r0 + 1 + n →
          chip1.display ((y_min + r) % 32) ((x_min + c) % 64) =
            chip.display ((y_min + r) % 32) ((x_min + c) % 64) := by
        intro r c hr1 hr2
        by_contra h
        obtain ⟨hR, _⟩ := (hdisp _ _).mp h
        omega
      rw [hflag2, hflag.2]
      constructor
      · rintro ((h | ⟨c, _, hc2, hc3, hc4⟩) | ⟨r, c, hr1, hr2, hc, hd, hb⟩)
        · exact Or.inl h
        · exact Or.inr ⟨r0, c, le_refl r0, by omega, by omega, hc3, hc4⟩
        · rw [hother r c hr1 hr2] at hd
          exact Or.inr ⟨r, c, by omega, by omega, hc, hd, hb⟩
      · rintro (h | ⟨r, c, hr1, hr2, hc, hd, hb⟩)
        · exact Or.inl (Or.inl h)
        · by_cases hr : r = r0
          · subst hr
            exact Or.inl (Or.inr ⟨c, Nat.zero_le c, by omega, hd, hb⟩)
          · refine Or.inr ⟨r, c, by omega, by omega, hc, ?_, hb⟩
            rw [hother r c (by omega) (by omega)]
            exact hd

theorem drawSprite_spec (chip : Chip8) (opcode X Y : Nat)
    (hmem : chip.index_reg + opcode % 16 ≤ 4096) :
    ∃ res, drawSprite chip opcode X Y = some res ∧ DrawFrame chip res ∧
      (∀ R C, res.display R C ≠ chip.display R C ↔
        ∃ r c, r < opcode % 16 ∧ c < 8 ∧ R = (setAt chip.reg 15 0 Y + r) % 32 ∧
          C = (setAt chip.reg 15 0 X + c) % 64 ∧
          (chip.memory (chip.index_reg + r)).testBit (7 - c) = true) ∧
      res.reg 15 ≤ 1 ∧
      (res.reg 15 = 1 ↔
        ∃ r c, r < opcode % 16 ∧ c < 8 ∧
          chip.display ((setAt chip.reg 15 0 Y + r) % 32)
            ((setAt chip.reg 15 0 X + c) % 64) = true ∧
          (chip.memory (chip.index_reg + r)).testBit (7 - c) = true) := by
  have hN : opcode % 16 < 16 := Nat.mod_lt _ (by decide)
  obtain ⟨res, hres, hfr, hdisp, hle, hflag⟩ :=
    drawRows_spec (setAt chip.reg 15 0 X) (setAt chip.reg 15 0 Y) (opcode % 16) 0
      { chip with reg := setAt chip.reg 15 0 } (by omega) (by show chip.index_reg + 0 + _ ≤ _; omega)
      (by show setAt chip.reg 15 0 15 ≤ 1; rw [setAt_same]; omega)
  refine ⟨res, ?_, ?_, fun R C => ?_, hle, ?_⟩
  · simp only [drawSprite, opcode_N]
    exact hres
  · exact ⟨hfr.memory_eq, hfr.index_reg_eq, hfr.pc_eq, hfr.sp_eq, hfr.stack_eq, hfr.keypad_eq,
      hfr.delay_timer_eq, hfr.sound_timer_eq,
      fun j hj => (hfr.reg_eq j hj).trans (setAt_other _ _ _ _ hj)⟩
  · rw [show chip.display R C = ({ chip with reg := setAt chip.reg 15 0 } : Chip8).display R C
      from rfl, hdisp R C]
    constructor
    · rintro ⟨r, c, _, hr, hc, hR, hC, hb⟩
      exact ⟨r, c, by omega, hc, hR, hC, hb⟩
    · rintro ⟨r, c, hr, hc, hR, hC, hb⟩
      exact ⟨r, c, Nat.zero_le r, by omega, hc, hR, hC, hb⟩
  · rw [hflag]
    constructor
    · rintro (h | ⟨r, c, _, hr, hc, hd, hb⟩)
      · have h0 : setAt chip.reg 15 0 15 = 1 := h
        rw [setAt_same] at h0
        omega
      · exact ⟨r, c, by omega, hc, hd, hb⟩
    · rintro ⟨r, c, hr, hc, hd, hb⟩
      exact Or.inr ⟨r, c, Nat.zero_le r, by omega, hc, hd, hb⟩

theorem tickTimers_eq (chip : Chip8) (inc_timer : Bool) :
    tickTimers chip inc_timer =
      { chip with
        delay_timer :=
          if inc_timer = true ∧ chip.delay_timer > 0 then chip.delay_timer - 1
          else chip.delay_timer
        sound_timer :=
          if inc_timer = true ∧ chip.sound_timer > 0 then chip.sound_timer - 1
          else chip.sound_timer } := by
  cases inc_timer
  · simp [tickTimers]
  · by_cases h1 : chip.sound_timer > 0 <;> by_cases h2 : chip.delay_timer > 0 <;>
      simp [tickTimers, h1, h2]

theorem tickTimers_frame (chip : Chip8) (inc_timer : Bool) :
    (tickTimers chip inc_timer).memory = chip.memory ∧
    (tickTimers chip inc_timer).reg = chip.reg ∧
    (tickTimers chip inc_timer).index_reg = chip.index_reg ∧
    (tickTimers chip inc_timer).pc = chip.pc ∧
    (tickTimers chip inc_timer).sp = chip.sp ∧
    (tickTimers chip inc_timer).stack = chip.stack ∧
    (tickTimers chip inc_timer).display = chip.display ∧
    (tickTimers chip inc_timer).keypad = chip.keypad := by
  rw [tickTimers_eq]
  exact ⟨rfl, rfl, rfl, rfl, rfl, rfl, rfl, rfl⟩

theorem step_eq (s : Chip8) (inc_timer : Bool) (rnd opcode : Nat) (hop : fetch s = some opcode) :
    step s inc_timer rnd =
      (execute { s with pc := (s.pc + 2) % 65536 } opcode rnd).map
        (fun chip => (tickTimers chip inc_timer, opcode >>> 12 == 0xD)) := by
  simp only [step, hop]
  cases execute { s with pc := (s.pc + 2) % 65536 } opcode rnd <;> rfl

theorem fetch_congr (a b : Chip8) (hm : a.memory = b.memory) (hp : a.pc = b.pc) :
    fetch a = fetch b := by
  simp only [fetch, hm, hp]

theorem fetch_pc_le (s : Chip8) (opcode : Nat) (hop : fetch s = some opcode) : s.pc ≤ 4094 := by
  unfold fetch at hop
  split at hop
  · omega
  · cases hop

theorem step_draw (s : Chip8) (inc_timer : Bool) (rnd opcode : Nat)
    (hop : fetch s = some opcode) (hfam : opcode / 4096 = 13)
    (hmem : s.index_reg + opcode % 16 ≤ 4096) :
    ∃ res, step s inc_timer rnd = some (tickTimers res inc_timer, true) ∧
      DrawFrame { s with pc := (s.pc + 2) % 65536 } res ∧
      (∀ R C, res.display R C ≠ s.display R C ↔
        ∃ r c, r < opcode % 16 ∧ c < 8 ∧
          R = (setAt s.reg 15 0 (opcode / 16 % 16) + r) % 32 ∧
          C = (setAt s.reg 15 0 (opcode / 256 % 16) + c) % 64 ∧
          (s.memory (s.index_reg + r)).testBit (7 - c) = true) ∧
      res.reg 15 ≤ 1 ∧
      (res.reg 15 = 1 ↔
        ∃ r c, r < opcode % 16 ∧ c < 8 ∧
          s.display ((setAt s.reg 15 0 (opcode / 16 % 16) + r) % 32)
            ((setAt s.reg 15 0 (opcode / 256 % 16) + c) % 64) = true ∧
          (s.memory (s.index_reg + r)).testBit (7 - c) = true) := by
  obtain ⟨res, hres, hfr, hdisp, hle, hflag⟩ :=
    drawSprite_spec { s with pc := (s.pc + 2) % 65536 } opcode (opcode / 256 % 16)
      (opcode / 16 % 16) hmem
  refine ⟨res, ?_, hfr, hdisp, hle, hflag⟩
  rw [step_eq s inc_timer rnd opcode hop]
  simp only [execute, opcode_family, opcode_X, opcode_Y, hfam, hres]
  rfl

/-- C2. Draw-sprite pixel effect: for an opcode `DXYN` with `X`, `Y` other than
15 and `index_reg + N ≤ 4096`, `step` succeeds and every pixel `(R, C)` becomes
its old value XOR `b`, where `b` holds exactly when some row offset `r < N` and
column offset `c < 8` have `R = (reg[Y] + r) mod 32`, `C = (reg[X] + c) mod 64`
and bit `7 - c` of `memory[index_reg + r]` set. Pixels outside the wrapped
rectangle are unchanged; from column 60 the eight target columns are 60..63
and 0..3 and nothing else changes, from row 30 with height 4 the target rows
are 30, 31, 0, 1 and nothing else changes. -/
theorem draw_pixel_effect (s : Chip8) (inc_timer : Bool) (rnd X Y N : Nat)
    (hX : X < 16) (hY : Y < 16) (hN : N < 16)
    (hop : fetch s = some (0xD000 + 256 * X + 16 * Y + N))
    (hX15 : X ≠ 15) (hY15 : Y ≠ 15) (hmem : s.index_reg + N ≤ 4096) :
    ∃ s' changed, step s inc_timer rnd = some (s', changed) ∧
      (∀ R C, ∃ b : Bool, s'.display R C = xor (s.display R C) b ∧
        (b = true ↔ ∃ r c, r < N ∧ c < 8 ∧ R = (s.reg Y + r) % 32 ∧
          C = (s.reg X + c) % 64 ∧ (s.memory (s.index_reg + r)).testBit (7 - c) = true)) ∧
      (∀ R C, (¬ ∃ r c, r < N ∧ c < 8 ∧ R = (s.reg Y + r) % 32 ∧ C = (s.reg X + c) % 64) →
        s'.display R C = s.display R C) ∧
      (s.reg X = 60 →
        (∀ c, c < 8 → (s.reg X + c) % 64 = if c < 4 then 60 + c else c - 4) ∧
        ∀ R C, s'.display R C ≠ s.display R C → (60 ≤ C ∧ C ≤ 63) ∨ C ≤ 3) ∧
      (s.reg Y = 30 → N = 4 →
        (∀ r, r < N → (s.reg Y + r) % 32 = if r < 2 then 30 + r else r - 2) ∧
        ∀ R C, s'.display R C ≠ s.display R C → R = 30 ∨ R = 31 ∨ R = 0 ∨ R = 1) := by
  have h1 : (0xD000 + 256 * X + 16 * Y + N) / 4096 = 13 := by omega
  have h2 : (0xD000 + 256 * X + 16 * Y + N) % 16 = N := by omega
  have h3 : (0xD000 + 256 * X + 16 * Y + N) / 256 % 16 = X := by omega
  have h4 : (0xD000 + 256 * X + 16 * Y + N) / 16 % 16 = Y := by omega
  obtain ⟨res, hstep, _, hdisp, _, _⟩ := step_draw s inc_timer rnd _ hop h1 (by omega)
  rw [h2, h3, h4, setAt_other _ _ _ _ hX15, setAt_other _ _ _ _ hY15] at hdisp
  have hd : (tickTimers res inc_timer).display = res.display :=
    (tickTimers_frame res inc_timer).2.2.2.2.2.2.1
  refine ⟨tickTimers res inc_timer, true, hstep, fun R C => ?_, fun R C hno => ?_,
    fun h60 => ⟨fun c hc => by split <;> omega, fun R C hch => ?_⟩,
    fun h30 h4 => ⟨fun r hr => by split <;> omega, fun R C hch => ?_⟩⟩
  · refine ⟨res.display R C != s.display R C, ?_, ?_⟩
    · rw [hd]
      cases res.display R C <;> cases s.display R C <;> rfl
    · rw [← hdisp R C]
      cases res.display R C <;> cases s.display R C <;> simp
  · rw [hd]
    by_contra h
    obtain ⟨r, c, hr, hc, hR, hC, _⟩ := (hdisp R C).mp h
    exact hno ⟨r, c, hr, hc, hR, hC⟩
  · rw [hd] at hch
    obtain ⟨r, c, _, hc, _, hC, _⟩ := (hdisp R C).mp hch
    omega
  · rw [hd] at hch
    obtain ⟨r, c, hr, _, hR, _, _⟩ := (hdisp R C).mp hch
    omega

/-- Witness of C2 on `drawDemo`. -/
theorem draw_pixel_effect_witness :
    fetch drawDemo = some (0xD000 + 256 * 1 + 16 * 2 + 4) ∧ drawDemo.index_reg + 4 ≤ 4096 ∧
    ∃ s' changed, step drawDemo true 0 = some (s', changed) ∧
      (∀ R C, ∃ b : Bool, s'.display R C = xor (drawDemo.display R C) b ∧
        (b = true ↔ ∃ r c, r < 4 ∧ c < 8 ∧ R = (drawDemo.reg 2 + r) % 32 ∧
          C = (drawDemo.reg 1 + c) % 64 ∧
          (drawDemo.memory (drawDemo.index_reg + r)).testBit (7 - c) = true)) ∧
      (∀ R C, (¬ ∃ r c, r < 4 ∧ c < 8 ∧ R = (drawDemo.reg 2 + r) % 32 ∧
          C = (drawDemo.reg 1 + c) % 64) → s'.display R C = drawDemo.display R C) ∧
      (drawDemo.reg 1 = 60 →
        (∀ c, c < 8 → (drawDemo.reg 1 + c) % 64 = if c < 4 then 60 + c else c - 4) ∧
        ∀ R C, s'.display R C ≠ drawDemo.display R C → (60 ≤ C ∧ C ≤ 63) ∨ C ≤ 3) ∧
      (drawDemo.reg 2 = 30 → 4 = 4 →
        (∀ r, r < 4 → (drawDemo.reg 2 + r) % 32 = if r < 2 then 30 + r else r - 2) ∧
        ∀ R C, s'.display R C ≠ drawDemo.display R C → R = 30 ∨ R = 31 ∨ R = 0 ∨ R = 1) :=
  ⟨by decide, by decide,
    draw_pixel_effect drawDemo true 0 1 2 4 (by decide) (by decide) (by decide) (by decide)
      (by decide) (by decide) (by decide)⟩

/-- C3. Draw-sprite collision flag: for an opcode `DXYN` with `X`, `Y` other
than 15 and `index_reg + N ≤ 4096`, after `step` the register `reg[15]` is 1
when some pixel of the wrapped target rectangle was on and has its sprite bit
set (that pixel is then off), and 0 otherwise, whatever `reg[15]` held
before. -/
theorem draw_collision_flag (s : Chip8) (inc_timer : Bool) (rnd X Y N : Nat)
    (hX : X < 16) (hY : Y < 16) (hN : N < 16)
    (hop : fetch s = some (0xD000 + 256 * X + 16 * Y + N))
    (hX15 : X ≠ 15) (hY15 : Y ≠ 15) (hmem : s.index_reg + N ≤ 4096) :
    ∃ s' changed, step s inc_timer rnd = some (s', changed) ∧
      ((∃ r c, r < N ∧ c < 8 ∧
          s.display ((s.reg Y + r) % 32) ((s.reg X + c) % 64) = true ∧
          (s.memory (s.index_reg + r)).testBit (7 - c) = true) → s'.reg 15 = 1) ∧
      ((¬ ∃ r c, r < N ∧ c < 8 ∧
          s.display ((s.reg Y + r) % 32) ((s.reg X + c) % 64) = true ∧
          (s.memory (s.index_reg + r)).testBit (7 - c) = true) → s'.reg 15 = 0) ∧
      (∀ r c, r < N → c < 8 →
        s.display ((s.reg Y + r) % 32) ((s.reg X + c) % 64) = true →
        (s.memory (s.index_reg + r)).testBit (7 - c) = true →
        s'.display ((s.reg Y + r) % 32) ((s.reg X + c) % 64) = false) := by
  have h1 : (0xD000 + 256 * X + 16 * Y + N) / 4096 = 13 := by omega
  have h2 : (0xD000 + 256 * X + 16 * Y + N) % 16 = N := by omega
  have h3 : (0xD000 + 256 * X + 16 * Y + N) / 256 % 16 = X := by omega
  have h4 : (0xD000 + 256 * X + 16 * Y + N) / 16 % 16 = Y := by omega
  obtain ⟨res, hstep, _, hdisp, hle, hflag⟩ := step_draw s inc_timer rnd _ hop h1 (by omega)
  rw [h2, h3, h4, setAt_other _ _ _ _ hX15, setAt_other _ _ _ _ hY15] at hdisp hflag
  have hd : (tickTimers res inc_timer).display = res.display :=
    (tickTimers_frame res inc_timer).2.2.2.2.2.2.1
  have hr : (tickTimers res inc_timer).reg = res.reg := (tickTimers_frame res inc_timer).2.1
  refine ⟨tickTimers res inc_timer, true, hstep, fun h => ?_, fun h => ?_,
    fun r c hr1 hc1 hon hbit => ?_⟩
  · rw [hr]
    exact hflag.mpr h
  · rw [hr]
    have : res.reg 15 ≠ 1 := fun h1 => h (hflag.mp h1)
    omega
  · rw [hd]
    have hch := (hdisp ((s.reg Y + r) % 32) ((s.reg X + c) % 64)).mpr
      ⟨r, c, hr1, hc1, rfl, rfl, hbit⟩
    rw [hon] at hch
    revert hch
    cases res.display ((s.reg Y + r) % 32) ((s.reg X + c) % 64) <;> simp

/-- Witness of C3 on `drawDemo`, and on `drawDemo` with every pixel lit, where
`reg[15] = 9` beforehand: the draw collides, `reg[15] = 1` and pixel (30, 60)
goes off. -/
theorem draw_collision_flag_witness :
    fetch drawDemo = some (0xD000 + 256 * 1 + 16 * 2 + 4) ∧ drawDemo.index_reg + 4 ≤ 4096 ∧
    (∃ s' changed, step drawDemo false 7 = some (s', changed) ∧
      ((∃ r c, r < 4 ∧ c < 8 ∧
          drawDemo.display ((drawDemo.reg 2 + r) % 32) ((drawDemo.reg 1 + c) % 64) = true ∧
          (drawDemo.memory (drawDemo.index_reg + r)).testBit (7 - c) = true) → s'.reg 15 = 1) ∧
      ((¬ ∃ r c, r < 4 ∧ c < 8 ∧
          drawDemo.display ((drawDemo.reg 2 + r) % 32) ((drawDemo.reg 1 + c) % 64) = true ∧
          (drawDemo.memory (drawDemo.index_reg + r)).testBit (7 - c) = true) → s'.reg 15 = 0) ∧
      (∀ r c, r < 4 → c < 8 →
        drawDemo.display ((drawDemo.reg 2 + r) % 32) ((drawDemo.reg 1 + c) % 64) = true →
        (drawDemo.memory (drawDemo.index_reg + r)).testBit (7 - c) = true →
        s'.display ((drawDemo.reg 2 + r) % 32) ((drawDemo.reg 1 + c) % 64) = false)) ∧
    (∃ s' changed,
      step { drawDemo with display := fun _ _ => true, reg := setAt drawDemo.reg 15 9 } false 7
        = some (s', changed) ∧ s'.reg 15 = 1 ∧ s'.display 30 60 = false) := by
  refine ⟨by decide, by decide,
    draw_collision_flag drawDemo false 7 1 2 4 (by decide) (by decide) (by decide) (by decide)
      (by decide) (by decide) (by decide), ?_⟩
  obtain ⟨s', changed, hstep, hone, _, hoff⟩ := draw_collision_flag
    { drawDemo with display := fun _ _ => true, reg := setAt drawDemo.reg 15 9 } false 7 1 2 4
    (by decide) (by decide) (by decide) (by decide) (by decide) (by decide) (by decide)
  exact ⟨s', changed, hstep, hone ⟨0, 0, by decide, by decide, rfl, by decide⟩,
    hoff 0 0 (by decide) (by decide) rfl (by decide)⟩

/-- C4. Draw-sprite twice: for any `X`, `Y`, `N` (15 included) with
`index_reg + N ≤ 4096`, when the word at `pc + 2` is the same opcode `DXYN`, two
successive steps restore the display, and `reg[15]` after the second draw is 1
exactly when the first draw turned some pixel from off to on (and is 0
otherwise). -/
theorem draw_twice_restores (s : Chip8) (inc1 inc2 : Bool) (rnd1 rnd2 X Y N : Nat)
    (hX : X < 16) (hY : Y < 16) (hN : N < 16)
    (hop : fetch s = some (0xD000 + 256 * X + 16 * Y + N))
    (hop2 : fetch { s with pc := (s.pc + 2) % 65536 } = some (0xD000 + 256 * X + 16 * Y + N))
    (hmem : s.index_reg + N ≤ 4096) :
    ∃ s1 c1 s2 c2, step s inc1 rnd1 = some (s1, c1) ∧ step s1 inc2 rnd2 = some (s2, c2) ∧
      (∀ R C, s2.display R C = s.display R C) ∧
      (s2.reg 15 = 0 ∨ s2.reg 15 = 1) ∧
      (s2.reg 15 = 1 ↔ ∃ R C, s.display R C = false ∧ s1.display R C = true) := by
  have h1 : (0xD000 + 256 * X + 16 * Y + N) / 4096 = 13 := by omega
  have h2 : (0xD000 + 256 * X + 16 * Y + N) % 16 = N := by omega
  obtain ⟨res1, hstep1, hfr1, hdisp1, _, _⟩ :=
    step_draw s inc1 rnd1 _ hop h1 (by omega)
  obtain ⟨hm1, hr1, hi1, hp1, _, _, hd1, _⟩ := tickTimers_frame res1 inc1
  have hfetch : fetch (tickTimers res1 inc1) = some (0xD000 + 256 * X + 16 * Y + N) := by
    rw [← hop2]
    exact fetch_congr _ _ (hm1.trans hfr1.memory_eq) (hp1.trans hfr1.pc_eq)
  have hidx : (tickTimers res1 inc1).index_reg = s.index_reg := hi1.trans hfr1.index_reg_eq
  obtain ⟨res2, hstep2, _, hdisp2, hle2, hflag2⟩ :=
    step_draw (tickTimers res1 inc1) inc2 rnd2 _ hfetch h1 (by rw [hidx]; omega)
  obtain ⟨_, hr2, _, _, _, _, hd2, _⟩ := tickTimers_frame res2 inc2
  have hreg : ∀ j, setAt (tickTimers res1 inc1).reg 15 0 j = setAt s.reg 15 0 j := by
    intro j
    by_cases hj : j = 15
    · subst hj; rw [setAt_same, setAt_same]
    · rw [setAt_other _ _ _ _ hj, setAt_other _ _ _ _ hj, hr1]
      exact hfr1.reg_eq j hj
  rw [hm1, hfr1.memory_eq, hidx, hd1] at hdisp2 hflag2
  simp only [hreg] at hdisp2 hflag2
  have hsame : ∀ R C, res2.display R C = s.display R C := by
    intro R C
    have ha := hdisp1 R C
    have hb := hdisp2 R C
    rw [← ha] at hb
    revert hb
    cases res2.display R C <;> cases res1.display R C <;> cases s.display R C <;> simp
  refine ⟨_, _, _, _, hstep1, hstep2, fun R C => ?_, ?_, ?_⟩
  · rw [hd2]
    exact hsame R C
  · rw [hr2]
    omega
  · rw [hr2, hd1, hflag2]
    constructor
    · rintro ⟨r, c, hr, hc, hon, hbit⟩
      refine ⟨_, _, ?_, hon⟩
      have hch := (hdisp1 _ _).mpr ⟨r, c, hr, hc, rfl, rfl, hbit⟩
      rw [hon] at hch
      revert hch
      cases s.display _ _ <;> simp
    · rintro ⟨R, C, hoff, hon⟩
      have hch : res1.display R C ≠ s.display R C := by rw [hoff, hon]; simp
      obtain ⟨r, c, hr, hc, hR, hC, hbit⟩ := (hdisp1 R C).mp hch
      refine ⟨r, c, hr, hc, ?_, hbit⟩
      rw [← hR, ← hC]
      exact hon

/-- Witness of C4 on `drawDemo`. -/
theorem draw_twice_restores_witness :
    fetch drawDemo = some (0xD000 + 256 * 1 + 16 * 2 + 4) ∧
    fetch { drawDemo with pc := (drawDemo.pc + 2) % 65536 }
      = some (0xD000 + 256 * 1 + 16 * 2 + 4) ∧
    ∃ s1 c1 s2 c2, step drawDemo true 0 = some (s1, c1) ∧ step s1 false 0 = some (s2, c2) ∧
      (∀ R C, s2.display R C = drawDemo.display R C) ∧
      (s2.reg 15 = 0 ∨ s2.reg 15 = 1) ∧
      (s2.reg 15 = 1 ↔ ∃ R C, drawDemo.display R C = false ∧ s1.display R C = true) :=
  ⟨by decide, by decide,
    draw_twice_restores drawDemo true false 0 0 1 2 4 (by decide) (by decide) (by decide)
      (by decide) (by decide) (by decide)⟩

/-! ## Call and return -/

theorem step_call (s : Chip8) (inc_timer : Bool) (rnd NNN : Nat)
    (hop : fetch s = some (0x2000 + NNN)) (hNNN : NNN < 4096) (hsp : s.sp ≤ 14) :
    step s inc_timer rnd = some (tickTimers { s with
      sp := s.sp + 1
      stack := setAt s.stack (s.sp + 1) ((s.pc + 2) % 65536)
      pc := NNN } inc_timer, false) := by
  have h1 : (0x2000 + NNN) / 4096 = 2 := by omega
  have h2 : (0x2000 + NNN) % 4096 = NNN := by omega
  have h3 : (s.sp + 1) % 256 = s.sp + 1 := by omega
  have h4 : s.sp + 1 < 16 := by omega
  rw [step_eq s inc_timer rnd _ hop]
  simp only [execute, opcode_family, opcode_NNN, h1, h2, h3, if_pos h4]
  rfl

theorem step_return (s : Chip8) (inc_timer : Bool) (rnd : Nat)
    (hop : fetch s = some 0xEE) (hsp : s.sp < 16) :
    step s inc_timer rnd = some (tickTimers { s with
      pc := s.stack s.sp
      sp := (s.sp + 255) % 256 } inc_timer, false) := by
  rw [step_eq s inc_timer rnd _ hop]
  simp only [execute, opcode_family, if_pos hsp]
  rfl

/-- C5. Call/return round trip: from a state with `sp ≤ 14` and `pc ≤ 4094`
whose opcode is `2NNN` with `NNN ≤ 4094` and whose memory holds `00EE` at `NNN`,
two steps succeed and leave `pc` at the original `pc + 2`, `sp` at its value
before the call, and registers, `index_reg`, memory and display unchanged. -/
theorem call_then_return (s : Chip8) (inc1 inc2 : Bool) (rnd1 rnd2 NNN : Nat)
    (hsp : s.sp ≤ 14) (hpc : s.pc ≤ 4094)
    (hop : fetch s = some (0x2000 + NNN)) (hNNN : NNN ≤ 4094)
    (hlo : s.memory NNN = 0x00) (hhi : s.memory (NNN + 1) = 0xEE) :
    ∃ s1 c1 s2 c2, step s inc1 rnd1 = some (s1, c1) ∧ step s1 inc2 rnd2 = some (s2, c2) ∧
      s2.pc = s.pc + 2 ∧ s2.sp = s.sp ∧ s2.reg = s.reg ∧ s2.index_reg = s.index_reg ∧
      s2.memory = s.memory ∧ s2.display = s.display := by
  have hstep1 := step_call s inc1 rnd1 NNN hop (by omega) hsp
  obtain ⟨hm1, hr1, hi1, hp1, hs1, hst1, hd1, _⟩ := tickTimers_frame { s with
      sp := s.sp + 1
      stack := setAt s.stack (s.sp + 1) ((s.pc + 2) % 65536)
      pc := NNN } inc1
  generalize tickTimers { s with
      sp := s.sp + 1
      stack := setAt s.stack (s.sp + 1) ((s.pc + 2) % 65536)
      pc := NNN } inc1 = s1 at hstep1 hm1 hr1 hi1 hp1 hs1 hst1 hd1
  simp only at hm1 hr1 hi1 hp1 hs1 hst1 hd1
  have hfetch : fetch s1 = some 0xEE := by
    have hA : NNN < 4096 ∧ NNN + 1 < 4096 := by omega
    have hB : (NNN + 1) % 65536 = NNN + 1 := by omega
    simp only [fetch, hp1, hm1, hB, if_pos hA, hlo, hhi]
    rfl
  have hstep2 := step_return s1 inc2 rnd2 hfetch (by rw [hs1]; omega)
  obtain ⟨hm2, hr2, hi2, hp2, hs2, _, hd2, _⟩ := tickTimers_frame { s1 with
      pc := s1.stack s1.sp
      sp := (s1.sp + 255) % 256 } inc2
  refine ⟨_, _, _, _, hstep1, hstep2, ?_, ?_, ?_, ?_, ?_, ?_⟩
  · rw [hp2]
    show s1.stack s1.sp = s.pc + 2
    rw [hst1, hs1, setAt_same]
    omega
  · rw [hs2]
    show (s1.sp + 255) % 256 = s.sp
    rw [hs1]
    omega
  · rw [hr2]; exact hr1
  · rw [hi2]; exact hi1
  · rw [hm2]; exact hm1
  · rw [hd2]; exact hd1

/-- Witness of C5 on `callDemo`. -/
theorem call_then_return_witness :
    callDemo.sp ≤ 14 ∧ callDemo.pc ≤ 4094 ∧ fetch callDemo = some (0x2000 + 0x300) ∧
    ∃ s1 c1 s2 c2, step callDemo true 0 = some (s1, c1) ∧ step s1 true 0 = some (s2, c2) ∧
      s2.pc = callDemo.pc + 2 ∧ s2.sp = callDemo.sp ∧ s2.reg = callDemo.reg ∧
      s2.index_reg = callDemo.index_reg ∧ s2.memory = callDemo.memory ∧
      s2.display = callDemo.display :=
  ⟨by decide, by decide, by decide,
    call_then_return callDemo true true 0 0 0x300 (by decide) (by decide) (by decide)
      (by decide) (by decide) (by decide)⟩

/-! ## Arithmetic with the flag register -/

theorem step_add (s : Chip8) (inc_timer : Bool) (rnd X Y : Nat) (hX : X < 16) (hY : Y < 16)
    (hop : fetch s = some (0x8000 + 256 * X + 16 * Y + 4)) :
    step s inc_timer rnd = some (tickTimers { s with
      pc := (s.pc + 2) % 65536
      reg := setAt (setAt s.reg 15 (Btoi (decide ((s.reg X + s.reg Y) % 65536 > 255)))) X
        ((setAt s.reg 15 (Btoi (decide ((s.reg X + s.reg Y) % 65536 > 255))) X +
          setAt s.reg 15 (Btoi (decide ((s.reg X + s.reg Y) % 65536 > 255))) Y) % 256) }
      inc_timer, false) := by
  have h1 : (0x8000 + 256 * X + 16 * Y + 4) / 4096 = 8 := by omega
  have h2 : (0x8000 + 256 * X + 16 * Y + 4) % 16 = 4 := by omega
  have h3 : (0x8000 + 256 * X + 16 * Y + 4) / 256 % 16 = X := by omega
  have h4 : (0x8000 + 256 * X + 16 * Y + 4) / 16 % 16 = Y := by omega
  rw [step_eq s inc_timer rnd _ hop]
  simp only [execute, opcode_family, opcode_X, opcode_Y, opcode_N, h1, h2, h3, h4]
  rfl

/-- Add with carry when neither operand register is the flag register. -/
theorem add_carry_plain (s : Chip8) (inc_timer : Bool) (rnd X Y : Nat)
    (hX : X < 16) (hY : Y < 16) (hwt : WellTyped s)
    (hop : fetch s = some (0x8000 + 256 * X + 16 * Y + 4)) (hX15 : X ≠ 15) (hY15 : Y ≠ 15) :
    ∃ s' changed, step s inc_timer rnd = some (s', changed) ∧
      s'.reg 15 = (if s.reg X + s.reg Y > 255 then 1 else 0) ∧
      s'.reg X = (s.reg X + s.reg Y) % 256 := by
  refine ⟨_, _, step_add s inc_timer rnd X Y hX hY hop, ?_, ?_⟩
  · rw [(tickTimers_frame _ inc_timer).2.1]
    have hx := hwt.reg_lt X
    have hy := hwt.reg_lt Y
    have hmod : (s.reg X + s.reg Y) % 65536 = s.reg X + s.reg Y := by omega
    show setAt (setAt s.reg 15 _) X _ 15 = _
    rw [setAt_other _ _ _ _ (Ne.symm hX15), setAt_same, hmod]
    by_cases h : s.reg X + s.reg Y > 255 <;> simp [Btoi, h]
  · rw [(tickTimers_frame _ inc_timer).2.1]
    show setAt (setAt s.reg 15 _) X _ X = _
    rw [setAt_same, setAt_other _ _ _ _ hX15, setAt_other _ _ _ _ hY15]

/-- C6 at the input `81F4` with `reg[1] = 200`, `reg[15] = 100`: the carry is
stored in `reg[15]` before `reg[Y]` is read, so with `Y = 15` the code leaves
`reg[1] = 200 + 1 = 201`, where the sum of the old values mod 256 is 44. -/
theorem add_carry_flag_operand :
    fetch (regDemo 0x81 0xF4 200 100) = some (0x8000 + 256 * 1 + 16 * 15 + 4) ∧
    ∃ s', step (regDemo 0x81 0xF4 200 100) false 0 = some (s', false) ∧
      s'.reg 15 = 1 ∧ s'.reg 1 = 201 ∧
      ((regDemo 0x81 0xF4 200 100).reg 1 + (regDemo 0x81 0xF4 200 100).reg 15) % 256 = 44 :=
  ⟨by decide, _, rfl, by decide, by decide, by decide⟩

theorem Btoi_cases (b : Bool) : Btoi b = 0 ∨ Btoi b = 1 := by
  cases b <;> simp [Btoi]

/-- Flag range when the destination register is not the flag register. -/
theorem flag_range_plain (s : Chip8) (inc_timer : Bool) (rnd X Y k : Nat)
    (hX : X < 16) (hY : Y < 16) (hwt : WellTyped s)
    (hk : k = 4 ∨ k = 5 ∨ k = 6 ∨ k = 7 ∨ k = 0xE)
    (hop : fetch s = some (0x8000 + 256 * X + 16 * Y + k)) (hX15 : X ≠ 15) :
    ∃ s' changed, step s inc_timer rnd = some (s', changed) ∧
      (s'.reg 15 = 0 ∨ s'.reg 15 = 1) := by
  have hk16 : k < 16 := by omega
  have h1 : (0x8000 + 256 * X + 16 * Y + k) / 4096 = 8 := by omega
  have h2 : (0x8000 + 256 * X + 16 * Y + k) % 16 = k := by omega
  have h3 : (0x8000 + 256 * X + 16 * Y + k) / 256 % 16 = X := by omega
  have h4 : (0x8000 + 256 * X + 16 * Y + k) / 16 % 16 = Y := by omega
  have hx := hwt.reg_lt X
  rw [step_eq s inc_timer rnd _ hop]
  simp only [execute, opcode_family, opcode_X, opcode_Y, opcode_N, h1, h2, h3, h4]
  rcases hk with rfl | rfl | rfl | rfl | rfl
  all_goals
    refine ⟨_, _, rfl, ?_⟩
    rw [(tickTimers_frame _ inc_timer).2.1]
    show setAt (setAt _ 15 _) X _ 15 = 0 ∨ setAt (setAt _ 15 _) X _ 15 = 1
    rw [setAt_other _ _ _ _ (Ne.symm hX15), setAt_same]
  · exact Btoi_cases _
  · exact Btoi_cases _
  · show s.reg X &&& 1 = 0 ∨ s.reg X &&& 1 = 1
    rw [Nat.and_one_is_mod]
    omega
  · exact Btoi_cases _
  · show s.reg X >>> 7 = 0 ∨ s.reg X >>> 7 = 1
    rw [Nat.shiftRight_eq_div_pow]
    omega

/-- C7 at the input `8F14` with `reg[1] = 7`, `reg[15] = 0`: the carry is stored
in `reg[15]` and then overwritten by the sum, so with `X = 15` the code leaves
`reg[15] = 7`, which is neither 0 nor 1. -/
theorem flag_range_destination :
    fetch (regDemo 0x8F 0x14 7 0) = some (0x8000 + 256 * 15 + 16 * 1 + 4) ∧
    ∃ s', step (regDemo 0x8F 0x14 7 0) false 0 = some (s', false) ∧ s'.reg 15 = 7 :=
  ⟨by decide, _, rfl, by decide⟩

/-! ## Timers -/

theorem drawRows_frame (x_min y_min : Nat) :
    ∀ (n y : Nat) (chip res : Chip8), drawRows x_min y_min n y chip = some res →
      DrawFrame chip res := by
  intro n
  induction n with
  | zero =>
    intro y chip res h
    cases h
    exact DrawFrame.refl chip
  | succ n ih =>
    intro y chip res h
    simp only [drawRows] at h
    split at h
    · exact (drawRow_frame _ y x_min 8 0 chip).trans (ih _ _ _ h)
    · cases h

theorem storeRegs_timers :
    ∀ (n i : Nat) (chip res : Chip8), storeRegs n i chip = some res →
      res.delay_timer = chip.delay_timer ∧ res.sound_timer = chip.sound_timer := by
  intro n
  induction n with
  | zero =>
    intro i chip res h
    cases h
    exact ⟨rfl, rfl⟩
  | succ n ih =>
    intro i chip res h
    simp only [storeRegs] at h
    split at h
    · have hih := ih _ _ _ h
      exact hih
    · cases h

theorem loadRegs_timers :
    ∀ (n i : Nat) (chip res : Chip8), loadRegs n i chip = some res →
      res.delay_timer = chip.delay_timer ∧ res.sound_timer = chip.sound_timer := by
  intro n
  induction n with
  | zero =>
    intro i chip res h
    cases h
    exact ⟨rfl, rfl⟩
  | succ n ih =>
    intro i chip res h
    simp only [loadRegs] at h
    split at h
    · have hih := ih _ _ _ h
      exact hih
    · cases h

theorem drawSprite_frame (chip res : Chip8) (opcode X Y : Nat)
    (h : drawSprite chip opcode X Y = some res) : DrawFrame chip res := by
  have hfr := drawRows_frame _ _ _ _ _ _ h
  exact ⟨hfr.memory_eq, hfr.index_reg_eq, hfr.pc_eq, hfr.sp_eq, hfr.stack_eq, hfr.keypad_eq,
    hfr.delay_timer_eq, hfr.sound_timer_eq,
    fun j hj => (hfr.reg_eq j hj).trans (setAt_other _ _ _ _ hj)⟩

theorem execute_delay_timer (chip res : Chip8) (opcode rnd : Nat)
    (h : execute chip opcode rnd = some res)
    (hno : ¬ (opcode >>> 12 = 0xF ∧ opcode &&& 0xFF = 0x15)) :
    res.delay_timer = chip.delay_timer := by
  unfold execute at h
  simp only at h
  split at h
  all_goals try (split at h)
  all_goals try (split at h)
  all_goals try (split at h)
  all_goals try (cases h; rfl)
  all_goals try (cases h; done)
  · exact (drawSprite_frame _ _ _ _ _ h).delay_timer_eq
  · next h1 _ h2 => exact absurd ⟨h1, h2⟩ hno
  · exact (storeRegs_timers _ _ _ _ h).1
  · exact (loadRegs_timers _ _ _ _ h).1

theorem execute_sound_timer (chip res : Chip8) (opcode rnd : Nat)
    (h : execute chip opcode rnd = some res)
    (hno : ¬ (opcode >>> 12 = 0xF ∧ opcode &&& 0xFF = 0x18)) :
    res.sound_timer = chip.sound_timer := by
  unfold execute at h
  simp only at h
  split at h
  all_goals try (split at h)
  all_goals try (split at h)
  all_goals try (split at h)
  all_goals try (cases h; rfl)
  all_goals try (cases h; done)
  · exact (drawSprite_frame _ _ _ _ _ h).sound_timer_eq
  · next h1 _ h2 => exact absurd ⟨h1, h2⟩ hno
  · exact (storeRegs_timers _ _ _ _ h).2
  · exact (loadRegs_timers _ _ _ _ h).2

theorem step_timers (s s' : Chip8) (inc_timer changed : Bool) (rnd opcode : Nat)
    (hop : fetch s = some opcode) (hstep : step s inc_timer rnd = some (s', changed)) :
    (¬ (opcode >>> 12 = 0xF ∧ opcode &&& 0xFF = 0x15) →
      s'.delay_timer = s.delay_timer - (if inc_timer = true then 1 else 0)) ∧
    (¬ (opcode >>> 12 = 0xF ∧ opcode &&& 0xFF = 0x18) →
      s'.sound_timer = s.sound_timer - (if inc_timer = true then 1 else 0)) := by
  rw [step_eq s inc_timer rnd opcode hop] at hstep
  cases hex : execute { s with pc := (s.pc + 2) % 65536 } opcode rnd with
  | none => rw [hex] at hstep; cases hstep
  | some res =>
    rw [hex] at hstep
    simp only [Option.map_some', Option.some.injEq, Prod.mk.injEq] at hstep
    obtain ⟨hs', _⟩ := hstep
    subst hs'
    rw [tickTimers_eq]
    constructor
    · intro hno
      have hd := execute_delay_timer _ _ _ _ hex hno
      show (if inc_timer = true ∧ res.delay_timer > 0 then res.delay_timer - 1
        else res.delay_timer) = _
      rw [hd]
      show _ = s.delay_timer - _
      cases inc_timer <;> simp
      omega
    · intro hno
      have hd := execute_sound_timer _ _ _ _ hex hno
      show (if inc_timer = true ∧ res.sound_timer > 0 then res.sound_timer - 1
        else res.sound_timer) = _
      rw [hd]
      show _ = s.sound_timer - _
      cases inc_timer <;> simp
      omega

theorem run_cons (s s' : Chip8) (inc_timer : Bool) (rnd : Nat) (rest : List (Bool × Nat))
    (hrun : run s ((inc_timer, rnd) :: rest) = some s') :
    ∃ opcode s1 changed, fetch s = some opcode ∧ step s inc_timer rnd = some (s1, changed) ∧
      run s1 rest = some s' ∧
      executed s ((inc_timer, rnd) :: rest) = opcode :: executed s1 rest := by
  simp only [run] at hrun
  cases hstep : step s inc_timer rnd with
  | none => rw [hstep] at hrun; cases hrun
  | some p =>
    obtain ⟨s1, changed⟩ := p
    rw [hstep] at hrun
    cases hop : fetch s with
    | none => simp only [step, hop] at hstep; cases hstep
    | some opcode =>
      refine ⟨opcode, s1, changed, rfl, rfl, hrun, ?_⟩
      simp only [executed, hop, hstep]

theorem ticks_cons (inc_timer : Bool) (rnd : Nat) (rest : List (Bool × Nat)) :
    ticks ((inc_timer, rnd) :: rest) = (if inc_timer = true then 1 else 0) + ticks rest := by
  cases inc_timer <;> simp [ticks]
  omega

theorem run_timers (inputs : List (Bool × Nat)) :
    ∀ (s s' : Chip8), run s inputs = some s' →
      ((∀ opcode ∈ executed s inputs, ¬ (opcode >>> 12 = 0xF ∧ opcode &&& 0xFF = 0x15)) →
        s'.delay_timer = s.delay_timer - ticks inputs) ∧
      ((∀ opcode ∈ executed s inputs, ¬ (opcode >>> 12 = 0xF ∧ opcode &&& 0xFF = 0x18)) →
        s'.sound_timer = s.sound_timer - ticks inputs) := by
  induction inputs with
  | nil =>
    intro s s' hrun
    cases hrun
    exact ⟨fun _ => rfl, fun _ => rfl⟩
  | cons p rest ih =>
    intro s s' hrun
    obtain ⟨inc_timer, rnd⟩ := p
    obtain ⟨opcode, s1, changed, hop, hstep, hrest, hex⟩ := run_cons s s' inc_timer rnd rest hrun
    obtain ⟨hd1, hs1⟩ := step_timers s s1 inc_timer changed rnd opcode hop hstep
    obtain ⟨hd2, hs2⟩ := ih s1 s' hrest
    rw [hex, ticks_cons]
    constructor
    · intro hno
      rw [hd2 (fun op hmem => hno op (List.mem_cons_of_mem _ hmem)),
        hd1 (hno opcode (List.mem_cons_self _ _))]
      omega
    · intro hno
      rw [hs2 (fun op hmem => hno op (List.mem_cons_of_mem _ hmem)),
        hs1 (hno opcode (List.mem_cons_self _ _))]
      omega

/-- C8. Timers: after a run of successful steps in which no executed opcode is
`FX15`, `delay_timer` equals `max 0 (d - t)`, where `d` is its initial value and
`t` the number of steps called with `inc_timer = true`; from 60 it is 0 exactly
when at least 60 steps ticked. The same holds for `sound_timer` with `FX18`,
independently. -/
theorem timers_count_down (s s' : Chip8) (inputs : List (Bool × Nat))
    (hrun : run s inputs = some s') :
    ((∀ opcode ∈ executed s inputs, ¬ (opcode >>> 12 = 0xF ∧ opcode &&& 0xFF = 0x15)) →
      (s'.delay_timer : Int) = max 0 ((s.delay_timer : Int) - (ticks inputs : Int)) ∧
      (s.delay_timer = 60 → (s'.delay_timer = 0 ↔ 60 ≤ ticks inputs))) ∧
    ((∀ opcode ∈ executed s inputs, ¬ (opcode >>> 12 = 0xF ∧ opcode &&& 0xFF = 0x18)) →
      (s'.sound_timer : Int) = max 0 ((s.sound_timer : Int) - (ticks inputs : Int)) ∧
      (s.sound_timer = 60 → (s'.sound_timer = 0 ↔ 60 ≤ ticks inputs))) := by
  obtain ⟨hd, hs⟩ := run_timers inputs s s' hrun
  constructor
  · intro hno
    have h := hd hno
    constructor
    · omega
    · intro h60
      omega
  · intro hno
    have h := hs hno
    constructor
    · omega
    · intro h60
      omega

/-- Witness of C8 on three steps of `timerDemo`, two of them ticking. -/
theorem timers_count_down_witness :
    ∃ s', run timerDemo [(true, 0), (false, 0), (true, 0)] = some s' ∧
      (∀ opcode ∈ executed timerDemo [(true, 0), (false, 0), (true, 0)],
        ¬ (opcode >>> 12 = 0xF ∧ opcode &&& 0xFF = 0x15)) ∧
      (∀ opcode ∈ executed timerDemo [(true, 0), (false, 0), (true, 0)],
        ¬ (opcode >>> 12 = 0xF ∧ opcode &&& 0xFF = 0x18)) ∧
      (s'.delay_timer : Int) = max 0 (60 - 2) ∧ (s'.sound_timer : Int) = max 0 (1 - 2) :=
  ⟨_, rfl, by decide, by decide,
    ((timers_count_down timerDemo _ [(true, 0), (false, 0), (true, 0)] rfl).1 (by decide)).1,
    ((timers_count_down timerDemo _ [(true, 0), (false, 0), (true, 0)] rfl).2 (by decide)).1⟩

/-! ## Binary-coded decimal -/

/-- C9 as stated fails: after the four steps of `6105 7103 F033 F265` the byte
`memory[index_reg + 2]` and `reg[2]` are 0, not 8, since `F033` converts
`reg[0]`. -/
theorem bcd_scenario_counterexample :
    ∃ s0 s4, initSystem bcdProgram = some s0 ∧
      run s0 [(false, 0), (false, 0), (false, 0), (false, 0)] = some s4 ∧
      s4.memory (s4.index_reg + 2) = 0 ∧ s4.reg 2 = 0 ∧
      ¬ (s4.memory (s4.index_reg + 2) = 8 ∧ s4.reg 2 = 8) :=
  ⟨_, _, rfl, rfl, by decide, by decide, by decide⟩

/-- C9 amended. End-to-end BCD scenario: whatever the tick flags, four steps
from the loaded program `6105 7103 F033 F265` leave
`memory[index_reg .. index_reg + 2] = 0, 0, 0` and `reg[0..2] = 0, 0, 0`; with
`F133` as third instruction they leave `0, 0, 8` and `0, 0, 8`. -/
theorem bcd_scenario (t1 t2 t3 t4 : Bool) (r1 r2 r3 r4 : Nat) :
    (∃ s0 s4, initSystem bcdProgram = some s0 ∧
      run s0 [(t1, r1), (t2, r2), (t3, r3), (t4, r4)] = some s4 ∧
      s4.memory s4.index_reg = 0 ∧ s4.memory (s4.index_reg + 1) = 0 ∧
      s4.memory (s4.index_reg + 2) = 0 ∧
      s4.reg 0 = 0 ∧ s4.reg 1 = 0 ∧ s4.reg 2 = 0) ∧
    (∃ s0 s4, initSystem bcdProgramReg1 = some s0 ∧
      run s0 [(t1, r1), (t2, r2), (t3, r3), (t4, r4)] = some s4 ∧
      s4.memory s4.index_reg = 0 ∧ s4.memory (s4.index_reg + 1) = 0 ∧
      s4.memory (s4.index_reg + 2) = 8 ∧
      s4.reg 0 = 0 ∧ s4.reg 1 = 0 ∧ s4.reg 2 = 8) := by
  cases t1 <;> cases t2 <;> cases t3 <;> cases t4 <;>
    exact ⟨⟨_, _, rfl, rfl, rfl, rfl, rfl, rfl, rfl, rfl⟩, ⟨_, _, rfl, rfl, rfl, rfl, rfl, rfl, rfl, rfl⟩⟩

theorem wellTyped_regDemo (hi lo r1 r15 : Nat) (h1 : hi < 256) (h2 : lo < 256)
    (h3 : r1 < 256) (h4 : r15 < 256) : WellTyped (regDemo hi lo r1 r15) := by
  have hz : ∀ n : Nat, 0 < n + 1 := Nat.zero_lt_succ
  refine ⟨fun i => ?_, fun i => ?_, hz _, ?_, hz _, fun i => hz _, hz _, hz _, hz _⟩
  rotate_left 2
  · show 0x200 < 65536
    decide
  · show (if i = 0x200 then hi else if i = 0x201 then lo else 0) < 256
    split
    · exact h1
    · split
      · exact h2
      · decide
  · show (if i = 1 then r1 else if i = 15 then r15 else 0) < 256
    split
    · exact h3
    · split
      · exact h4
      · decide

/-- C10. BCD store: for an opcode `FX33` with `index_reg + 2 ≤ 4095`, `step`
succeeds and the bytes `h, t, o` at `index_reg, index_reg + 1, index_reg + 2`
satisfy `h ≤ 2`, `t ≤ 9`, `o ≤ 9` and `100 h + 10 t + o = reg[X]`; every other
memory byte, every register and `index_reg` are unchanged. -/
theorem bcd_store (s : Chip8) (inc_timer : Bool) (rnd X : Nat) (hX : X < 16)
    (hwt : WellTyped s) (hop : fetch s = some (0xF000 + 256 * X + 0x33))
    (hidx : s.index_reg + 2 ≤ 4095) :
    ∃ s' changed, step s inc_timer rnd = some (s', changed) ∧
      s'.memory s'.index_reg ≤ 2 ∧ s'.memory (s'.index_reg + 1) ≤ 9 ∧
      s'.memory (s'.index_reg + 2) ≤ 9 ∧
      100 * s'.memory s'.index_reg + 10 * s'.memory (s'.index_reg + 1)
        + s'.memory (s'.index_reg + 2) = s'.reg X ∧
      (∀ j, j ≠ s.index_reg → j ≠ s.index_reg + 1 → j ≠ s.index_reg + 2 →
        s'.memory j = s.memory j) ∧
      s'.reg = s.reg ∧ s'.index_reg = s.index_reg := by
  have h1 : (0xF000 + 256 * X + 0x33) / 4096 = 15 := by omega
  have h2 : (0xF000 + 256 * X + 0x33) % 256 = 0x33 := by omega
  have h3 : (0xF000 + 256 * X + 0x33) / 256 % 16 = X := by omega
  have hA : s.index_reg < 4096 ∧ s.index_reg + 1 < 4096 ∧ s.index_reg + 2 < 4096 := by omega
  have hB : (s.index_reg + 1) % 65536 = s.index_reg + 1 := by omega
  have hC : (s.index_reg + 2) % 65536 = s.index_reg + 2 := by omega
  have hx := hwt.reg_lt X
  rw [step_eq s inc_timer rnd _ hop]
  simp only [execute, opcode_family, opcode_X, opcode_NN, h1, h2, h3, hB, hC, if_pos hA]
  refine ⟨_, _, rfl, ?_⟩
  obtain ⟨hm, hr, hi, _⟩ := tickTimers_frame
    { s with
      pc := (s.pc + 2) % 65536
      memory := setAt (setAt (setAt s.memory s.index_reg (s.reg X / 100)) (s.index_reg + 1)
        (s.reg X / 10 % 10)) (s.index_reg + 2) (s.reg X % 10) } inc_timer
  rw [hm, hr, hi]
  have e0 : setAt (setAt (setAt s.memory s.index_reg (s.reg X / 100)) (s.index_reg + 1)
        (s.reg X / 10 % 10)) (s.index_reg + 2) (s.reg X % 10) s.index_reg = s.reg X / 100 := by
    rw [setAt_other _ _ _ _ (by omega), setAt_other _ _ _ _ (by omega), setAt_same]
  have e1 : setAt (setAt (setAt s.memory s.index_reg (s.reg X / 100)) (s.index_reg + 1)
        (s.reg X / 10 % 10)) (s.index_reg + 2) (s.reg X % 10) (s.index_reg + 1)
        = s.reg X / 10 % 10 := by
    rw [setAt_other _ _ _ _ (by omega), setAt_same]
  have e2 : setAt (setAt (setAt s.memory s.index_reg (s.reg X / 100)) (s.index_reg + 1)
        (s.reg X / 10 % 10)) (s.index_reg + 2) (s.reg X % 10) (s.index_reg + 2)
        = s.reg X % 10 := by
    rw [setAt_same]
  refine ⟨?_, ?_, ?_, ?_, fun j hj0 hj1 hj2 => ?_, rfl, rfl⟩
  · show setAt _ _ _ s.index_reg ≤ 2
    rw [e0]; omega
  · show setAt _ _ _ (s.index_reg + 1) ≤ 9
    rw [e1]; omega
  · show setAt _ _ _ (s.index_reg + 2) ≤ 9
    rw [e2]; omega
  · show 100 * setAt _ _ _ s.index_reg + 10 * setAt _ _ _ (s.index_reg + 1)
      + setAt _ _ _ (s.index_reg + 2) = s.reg X
    rw [e0, e1, e2]; omega
  · show setAt _ _ _ j = s.memory j
    rw [setAt_other _ _ _ _ hj2, setAt_other _ _ _ _ hj1, setAt_other _ _ _ _ hj0]

/-- Witness of C10 on `F133` with `reg[1] = 254`. -/
theorem bcd_store_witness :
    WellTyped (regDemo 0xF1 0x33 254 0) ∧
    fetch (regDemo 0xF1 0x33 254 0) = some (0xF000 + 256 * 1 + 0x33) ∧
    ∃ s' changed, step (regDemo 0xF1 0x33 254 0) true 0 = some (s', changed) ∧
      s'.memory s'.index_reg ≤ 2 ∧ s'.memory (s'.index_reg + 1) ≤ 9 ∧
      s'.memory (s'.index_reg + 2) ≤ 9 ∧
      100 * s'.memory s'.index_reg + 10 * s'.memory (s'.index_reg + 1)
        + s'.memory (s'.index_reg + 2) = s'.reg 1 ∧
      (∀ j, j ≠ (regDemo 0xF1 0x33 254 0).index_reg →
        j ≠ (regDemo 0xF1 0x33 254 0).index_reg + 1 →
        j ≠ (regDemo 0xF1 0x33 254 0).index_reg + 2 →
        s'.memory j = (regDemo 0xF1 0x33 254 0).memory j) ∧
      s'.reg = (regDemo 0xF1 0x33 254 0).reg ∧
      s'.index_reg = (regDemo 0xF1 0x33 254 0).index_reg :=
  ⟨wellTyped_regDemo _ _ _ _ (by decide) (by decide) (by decide) (by decide), by decide,
    bcd_store (regDemo 0xF1 0x33 254 0) true 0 1 (by decide)
      (wellTyped_regDemo _ _ _ _ (by decide) (by decide) (by decide) (by decide)) (by decide)
      (by decide)⟩

/-! ## Keypad -/

theorem key_bit (keypad k : Nat) : ((keypad >>> k) &&& 0x1 ≠ 0) ↔ keypad.testBit k = true := by
  rw [← spriteBit_eq keypad k]
  simp

/-- What the code does on `EXA1`: it skips when key `reg[X]` is pressed. -/
theorem skip_A1_actual (s : Chip8) (inc_timer : Bool) (rnd X : Nat) (hX : X < 16)
    (hop : fetch s = some (0xE0A1 + 256 * X)) :
    ∃ s' changed, step s inc_timer rnd = some (s', changed) ∧
      (s.keypad.testBit (s.reg X) = true → s'.pc = (s.pc + 4) % 65536) ∧
      (s.keypad.testBit (s.reg X) = false → s'.pc = (s.pc + 2) % 65536) := by
  have h1 : (0xE0A1 + 256 * X) / 4096 = 14 := by omega
  have h2 : (0xE0A1 + 256 * X) % 256 = 0xA1 := by omega
  have h3 : (0xE0A1 + 256 * X) / 256 % 16 = X := by omega
  rw [step_eq s inc_timer rnd _ hop]
  simp only [execute, opcode_family, opcode_X, opcode_NN, h1, h2, h3]
  by_cases hk : s.keypad.testBit (s.reg X) = true
  · have hk2 := (key_bit s.keypad (s.reg X)).mpr hk
    rw [if_pos (Or.inr ⟨trivial, hk2⟩)]
    refine ⟨_, _, rfl, fun _ => ?_, fun h => ?_⟩
    · rw [(tickTimers_frame _ inc_timer).2.2.2.1]
      show ((s.pc + 2) % 65536 + 2) % 65536 = _
      omega
    · rw [hk] at h; cases h
  · have hk2 : ¬ ((s.keypad >>> s.reg X) &&& 0x1 ≠ 0) := fun h => hk ((key_bit _ _).mp h)
    rw [if_neg (by rintro (⟨h, _⟩ | ⟨_, h⟩); exact absurd h (by decide); exact hk2 h)]
    refine ⟨_, _, rfl, fun h => absurd h hk, fun _ => ?_⟩
    rw [(tickTimers_frame _ inc_timer).2.2.2.1]

/-- C11 at the input `E1A1` with `reg[1] = 3`: with key 3 not pressed the code
leaves `pc = old pc + 2` (no skip), and with key 3 pressed (`keypad = 8`) it
leaves `pc = old pc + 4` (skip), the opposite of skip-if-not-pressed. -/
theorem skip_not_pressed_diverges :
    fetch (regDemo 0xE1 0xA1 3 0) = some (0xE0A1 + 256 * 1) ∧
    (regDemo 0xE1 0xA1 3 0).keypad.testBit ((regDemo 0xE1 0xA1 3 0).reg 1) = false ∧
    (∃ s', step (regDemo 0xE1 0xA1 3 0) false 0 = some (s', false) ∧
      s'.pc = (regDemo 0xE1 0xA1 3 0).pc + 2) ∧
    (∃ s', step { regDemo 0xE1 0xA1 3 0 with keypad := 8 } false 0 = some (s', false) ∧
      s'.pc = (regDemo 0xE1 0xA1 3 0).pc + 4) :=
  ⟨by decide, by decide, ⟨_, rfl, by decide⟩, ⟨_, rfl, by decide⟩⟩

theorem onesBelow_pos (x : Nat) :
    ∀ n, 0 < onesBelow n x ↔ ∃ i, i < n ∧ x.testBit i = true := by
  intro n
  induction n with
  | zero =>
    simp only [onesBelow, Nat.lt_irrefl, false_iff]
    rintro ⟨i, hi, _⟩
    omega
  | succ n ih =>
    simp only [onesBelow]
    by_cases hb : x.testBit n = true
    · rw [hb]
      constructor
      · intro _; exact ⟨n, by omega, hb⟩
      · intro _; simp [Btoi]
    · have hb2 : x.testBit n = false := by simpa using hb
      rw [hb2]
      simp only [Btoi, Bool.false_eq_true, if_false, Nat.zero_add]
      rw [ih]
      constructor
      · rintro ⟨i, hi, h⟩; exact ⟨i, by omega, h⟩
      · rintro ⟨i, hi, h⟩
        have : i ≠ n := by rintro rfl; rw [hb2] at h; cases h
        exact ⟨i, by omega, h⟩

theorem lenBelow_spec (x : Nat) :
    ∀ n, (∃ i, i < n ∧ x.testBit i = true) →
      1 ≤ lenBelow n x ∧ lenBelow n x ≤ n ∧ x.testBit (lenBelow n x - 1) = true ∧
      ∀ j, j < n → x.testBit j = true → j ≤ lenBelow n x - 1 := by
  intro n
  induction n with
  | zero =>
    rintro ⟨i, hi, _⟩
    omega
  | succ n ih =>
    rintro ⟨i, hi, hbit⟩
    simp only [lenBelow]
    by_cases hb : x.testBit n = true
    · rw [if_pos hb]
      refine ⟨by omega, by omega, by simpa using hb, fun j hj _ => by omega⟩
    · rw [if_neg hb]
      have hi2 : i ≠ n := by rintro rfl; exact hb hbit
      obtain ⟨h1, h2, h3, h4⟩ := ih ⟨i, by omega, hbit⟩
      refine ⟨h1, by omega, h3, fun j hj hjb => ?_⟩
      have : j ≠ n := by rintro rfl; exact hb hjb
      exact h4 j (by omega) hjb

theorem exists_bit_of_ne_zero (x : Nat) (hx : x < 65536) (h0 : x ≠ 0) :
    ∃ i, i < 16 ∧ x.testBit i = true := by
  by_contra hno
  apply h0
  apply Nat.eq_of_testBit_eq
  intro i
  rw [Nat.zero_testBit]
  by_cases hi : i < 16
  · by_contra hb
    exact hno ⟨i, hi, by simpa using hb⟩
  · apply Nat.testBit_lt_two_pow
    calc x < 2 ^ 16 := hx
      _ ≤ 2 ^ i := Nat.pow_le_pow_right (by decide) (by omega)

theorem bit_lt_of_lt (x j : Nat) (hx : x < 65536) (hb : x.testBit j = true) : j < 16 := by
  by_contra hj
  have : x.testBit j = false := by
    apply Nat.testBit_lt_two_pow
    calc x < 2 ^ 16 := hx
      _ ≤ 2 ^ j := Nat.pow_le_pow_right (by decide) (by omega)
  rw [this] at hb
  cases hb

/-- C12. Key wait: for an opcode `FX0A`, `step` succeeds; with `keypad = 0` it
leaves `pc` at its value before the step and registers, `index_reg`, memory,
stack, `sp` and display unchanged; with `keypad ≠ 0` it leaves `pc = old pc + 2`
and `reg[X] = k`, the largest bit index set in `keypad` (`k ≤ 15`), all other
registers unchanged. -/
theorem key_wait (s : Chip8) (inc_timer : Bool) (rnd X : Nat) (hX : X < 16)
    (hwt : WellTyped s) (hop : fetch s = some (0xF00A + 256 * X)) :
    ∃ s' changed, step s inc_timer rnd = some (s', changed) ∧
      (s.keypad = 0 →
        s'.pc = s.pc ∧ s'.reg = s.reg ∧ s'.index_reg = s.index_reg ∧ s'.memory = s.memory ∧
        s'.stack = s.stack ∧ s'.sp = s.sp ∧ s'.display = s.display) ∧
      (s.keypad ≠ 0 →
        s'.pc = s.pc + 2 ∧
        ∃ k, k ≤ 15 ∧ s.keypad.testBit k = true ∧ (∀ j, s.keypad.testBit j = true → j ≤ k) ∧
          s'.reg X = k ∧ ∀ j, j ≠ X → s'.reg j = s.reg j) := by
  have h1 : (0xF00A + 256 * X) / 4096 = 15 := by omega
  have h2 : (0xF00A + 256 * X) % 256 = 0x0A := by omega
  have h3 : (0xF00A + 256 * X) / 256 % 16 = X := by omega
  have hpc := fetch_pc_le s _ hop
  have hkp := hwt.keypad_lt
  rw [step_eq s inc_timer rnd _ hop]
  simp only [execute, opcode_family, opcode_X, opcode_NN, h1, h2, h3]
  by_cases hk : s.keypad = 0
  · have hones : ¬ (OnesCount16 s.keypad > 0) := by
      rw [hk]; decide
    rw [if_neg hones]
    refine ⟨_, _, rfl, fun _ => ?_, fun h => absurd hk h⟩
    obtain ⟨hm, hr, hi, hp, hs, hst, hd, _⟩ := tickTimers_frame
      { s with pc := ((s.pc + 2) % 65536 + 65536 - 2) % 65536 } inc_timer
    refine ⟨?_, hr, hi, hm, hst, hs, hd⟩
    rw [hp]
    show ((s.pc + 2) % 65536 + 65536 - 2) % 65536 = s.pc
    omega
  · have hex := exists_bit_of_ne_zero s.keypad hkp hk
    have hones : OnesCount16 s.keypad > 0 := (onesBelow_pos s.keypad 16).mpr hex
    obtain ⟨l1, l2, l3, l4⟩ := lenBelow_spec s.keypad 16 hex
    rw [if_pos hones]
    refine ⟨_, _, rfl, fun h => absurd h hk, fun _ => ?_⟩
    obtain ⟨_, hr, _, hp, _⟩ := tickTimers_frame
      { s with
        reg := setAt s.reg X ((Len16 s.keypad - 1) % 256)
        pc := (((s.pc + 2) % 65536 + 65536 - 2) % 65536 + 2) % 65536 } inc_timer
    refine ⟨?_, lenBelow 16 s.keypad - 1, by omega, l3,
      fun j hj => l4 j (bit_lt_of_lt _ _ hkp hj) hj, ?_, fun j hj => ?_⟩
    · rw [hp]
      show (((s.pc + 2) % 65536 + 65536 - 2) % 65536 + 2) % 65536 = s.pc + 2
      omega
    · rw [hr]
      show setAt s.reg X ((lenBelow 16 s.keypad - 1) % 256) X = _
      rw [setAt_same]
      omega
    · rw [hr]
      show setAt s.reg X _ j = _
      rw [setAt_other _ _ _ _ hj]

theorem wellTyped_keyDemo (hi lo r1 keypad : Nat) (h1 : hi < 256) (h2 : lo < 256)
    (h3 : r1 < 256) (h4 : keypad < 65536) : WellTyped (keyDemo hi lo r1 keypad) := by
  have h := wellTyped_regDemo hi lo r1 0 h1 h2 h3 (by decide)
  exact ⟨h.memory_lt, h.reg_lt, h.index_reg_lt, h.pc_lt, h.sp_lt, h.stack_lt, h4,
    h.delay_timer_lt, h.sound_timer_lt⟩

/-- Witness of C12 on `F10A` with keys 2 and 8 pressed. -/
theorem key_wait_witness :
    WellTyped (keyDemo 0xF1 0x0A 0 0x104) ∧
    fetch (keyDemo 0xF1 0x0A 0 0x104) = some (0xF00A + 256 * 1) ∧
    (keyDemo 0xF1 0x0A 0 0x104).keypad ≠ 0 ∧
    ∃ s' changed, step (keyDemo 0xF1 0x0A 0 0x104) true 0 = some (s', changed) ∧
      s'.pc = (keyDemo 0xF1 0x0A 0 0x104).pc + 2 ∧
      ∃ k, k ≤ 15 ∧ (keyDemo 0xF1 0x0A 0 0x104).keypad.testBit k = true ∧
        (∀ j, (keyDemo 0xF1 0x0A 0 0x104).keypad.testBit j = true → j ≤ k) ∧
        s'.reg 1 = k ∧ ∀ j, j ≠ 1 → s'.reg j = (keyDemo 0xF1 0x0A 0 0x104).reg j := by
  refine ⟨wellTyped_keyDemo _ _ _ _ (by decide) (by decide) (by decide) (by decide),
    by decide, by decide, ?_⟩
  obtain ⟨s', changed, hstep, _, hk⟩ := key_wait (keyDemo 0xF1 0x0A 0 0x104) true 0 1
    (by decide) (wellTyped_keyDemo _ _ _ _ (by decide) (by decide) (by decide) (by decide))
    (by decide)
  exact ⟨s', changed, hstep, hk (by decide)⟩

/-! ## Opcodes without a table row -/

theorem execute_noTableRow (chip : Chip8) (opcode rnd : Nat) (hrow : noTableRow opcode)
    (h5 : opcode / 4096 ≠ 5) (h9 : opcode / 4096 ≠ 9) :
    execute chip opcode rnd = some chip := by
  rcases hrow with ⟨h0, hE0, hEE⟩ | ⟨h59, _⟩ | ⟨h8, hk⟩ | ⟨hE, hk1, hk2⟩ |
    ⟨hF, k1, k2, k3, k4, k5, k6, k7, k8, k9⟩
  · simp only [execute, opcode_family, h0, if_neg hE0, if_neg hEE]
  · rcases h59 with h | h
    · exact absurd h h5
    · exact absurd h h9
  · rcases hk with h | h | h | h | h | h | h <;>
      simp only [execute, opcode_family, opcode_N, h8, h]
  · simp only [execute, opcode_family, opcode_NN, hE]
    rw [if_neg]
    rintro (⟨h, _⟩ | ⟨h, _⟩)
    · exact hk1 h
    · exact hk2 h
  · simp only [execute, opcode_family, opcode_NN, hF]

theorem execute_skip_eq (chip : Chip8) (opcode rnd : Nat) (h5 : opcode / 4096 = 5) :
    execute chip opcode rnd =
      some { chip with pc :=
        (if chip.reg (opcode / 256 % 16) = chip.reg (opcode / 16 % 16)
          then (chip.pc + 2) % 65536 else chip.pc) } := by
  simp only [execute, opcode_family, opcode_X, opcode_Y, h5]
  split <;> rfl

theorem execute_skip_ne (chip : Chip8) (opcode rnd : Nat) (h9 : opcode / 4096 = 9) :
    execute chip opcode rnd =
      some { chip with pc :=
        (if chip.reg (opcode / 256 % 16) ≠ chip.reg (opcode / 16 % 16)
          then (chip.pc + 2) % 65536 else chip.pc) } := by
  simp only [execute, opcode_family, opcode_X, opcode_Y, h9]
  split <;> rfl

/-- C13 as stated fails on `5001`: family 5 ignores the low nibble, and since
`reg[0] = reg[0]` the code skips, leaving `pc = old pc + 4`. -/
theorem unrecognized_skip_counterexample :
    fetch (regDemo 0x50 0x01 0 0) = some 0x5001 ∧ noTableRow 0x5001 ∧
    (regDemo 0x50 0x01 0 0).pc ≤ 4094 ∧
    ∃ s', step (regDemo 0x50 0x01 0 0) false 0 = some (s', false) ∧
      s'.pc = (regDemo 0x50 0x01 0 0).pc + 4 ∧ s'.pc ≠ (regDemo 0x50 0x01 0 0).pc + 2 :=
  ⟨by decide, Or.inr (Or.inl ⟨Or.inl (by decide), by decide⟩), by decide,
    _, rfl, by decide, by decide⟩

/-- C13 amended. Opcodes without a table row: from `pc ≤ 4094`, for every
opcode of the list other than `5XYk` and `9XYk`, `step` succeeds and changes
only `pc`, to `old pc + 2` (and the timers by the tick rule); `5XYk` and `9XYk`
are executed for every `k` as the skips `5XY0` and `9XY0`. -/
theorem unrecognized_noop (s : Chip8) (inc_timer : Bool) (rnd opcode : Nat)
    (hpc : s.pc ≤ 4094) (hop : fetch s = some opcode) :
    (noTableRow opcode → opcode / 4096 ≠ 5 → opcode / 4096 ≠ 9 →
      step s inc_timer rnd = some (tickTimers { s with pc := s.pc + 2 } inc_timer, false)) ∧
    (opcode / 4096 = 5 →
      step s inc_timer rnd = some (tickTimers { s with pc :=
        (if s.reg (opcode / 256 % 16) = s.reg (opcode / 16 % 16) then s.pc + 4
          else s.pc + 2) } inc_timer, false)) ∧
    (opcode / 4096 = 9 →
      step s inc_timer rnd = some (tickTimers { s with pc :=
        (if s.reg (opcode / 256 % 16) ≠ s.reg (opcode / 16 % 16) then s.pc + 4
          else s.pc + 2) } inc_timer, false)) := by
  have hpc2 : (s.pc + 2) % 65536 = s.pc + 2 := by omega
  have hpc4 : (s.pc + 2 + 2) % 65536 = s.pc + 4 := by omega
  refine ⟨fun hrow h5 h9 => ?_, fun h5 => ?_, fun h9 => ?_⟩
  · have hfam : (opcode >>> 12 == 0xD) = false := by
      rw [opcode_family]
      unfold noTableRow at hrow
      have : opcode / 4096 ≠ 13 := by omega
      simpa using this
    rw [step_eq s inc_timer rnd _ hop, execute_noTableRow _ _ _ hrow h5 h9, hpc2, hfam]
    rfl
  · have hfam : (opcode >>> 12 == 0xD) = false := by
      rw [opcode_family, h5]; rfl
    rw [step_eq s inc_timer rnd _ hop, execute_skip_eq _ _ _ h5, hfam, hpc2]
    show some (tickTimers { s with pc :=
      (if s.reg (opcode / 256 % 16) = s.reg (opcode / 16 % 16) then (s.pc + 2 + 2) % 65536
        else s.pc + 2) } inc_timer, false) = _
    rw [hpc4]
  · have hfam : (opcode >>> 12 == 0xD) = false := by
      rw [opcode_family, h9]; rfl
    rw [step_eq s inc_timer rnd _ hop, execute_skip_ne _ _ _ h9, hfam, hpc2]
    show some (tickTimers { s with pc :=
      (if s.reg (opcode / 256 % 16) ≠ s.reg (opcode / 16 % 16) then (s.pc + 2 + 2) % 65536
        else s.pc + 2) } inc_timer, false) = _
    rw [hpc4]

/-- Witness of C13 on `8128`. -/
theorem unrecognized_noop_witness :
    (regDemo 0x81 0x28 7 0).pc ≤ 4094 ∧ fetch (regDemo 0x81 0x28 7 0) = some 0x8128 ∧
    noTableRow 0x8128 ∧
    step (regDemo 0x81 0x28 7 0) true 0
      = some (tickTimers { regDemo 0x81 0x28 7 0 with pc := (regDemo 0x81 0x28 7 0).pc + 2 }
          true, false) :=
  ⟨by decide, by decide, Or.inr (Or.inr (Or.inl ⟨by decide, Or.inl (by decide)⟩)),
    (unrecognized_noop (regDemo 0x81 0x28 7 0) true 0 0x8128 (by decide) (by decide)).1
      (Or.inr (Or.inr (Or.inl ⟨by decide, Or.inl (by decide)⟩))) (by decide) (by decide)⟩

/-! ## Display -/

theorem storeRegs_frame :
    ∀ (n i : Nat) (chip res : Chip8), storeRegs n i chip = some res →
      res.display = chip.display ∧ res.sp = chip.sp ∧ res.reg = chip.reg ∧
      res.index_reg = chip.index_reg := by
  intro n
  induction n with
  | zero =>
    intro i chip res h
    cases h
    exact ⟨rfl, rfl, rfl, rfl⟩
  | succ n ih =>
    intro i chip res h
    simp only [storeRegs] at h
    split at h
    · have hih := ih _ _ _ h
      exact hih
    · cases h

theorem loadRegs_frame :
    ∀ (n i : Nat) (chip res : Chip8), loadRegs n i chip = some res →
      res.display = chip.display ∧ res.sp = chip.sp ∧ res.memory = chip.memory ∧
      res.index_reg = chip.index_reg := by
  intro n
  induction n with
  | zero =>
    intro i chip res h
    cases h
    exact ⟨rfl, rfl, rfl, rfl⟩
  | succ n ih =>
    intro i chip res h
    simp only [loadRegs] at h
    split at h
    · have hih := ih _ _ _ h
      exact hih
    · cases h

theorem execute_display (chip res : Chip8) (opcode rnd : Nat)
    (h : execute chip opcode rnd = some res)
    (hD : opcode >>> 12 ≠ 0xD) (hE0 : opcode ≠ 0xE0) :
    res.display = chip.display := by
  unfold execute at h
  simp only at h
  split at h
  all_goals try (split at h)
  all_goals try (split at h)
  all_goals try (split at h)
  all_goals try (cases h; rfl)
  all_goals try (cases h; done)
  · next h1 => exact absurd h1 hE0
  · next h1 => exact absurd h1 hD
  · exact (storeRegs_frame _ _ _ _ h).1
  · exact (loadRegs_frame _ _ _ _ h).1

/-- C14 as stated fails on `D000`, a sprite of height 0: `step` returns `true`
and the display is unchanged. -/
theorem display_signal_counterexample :
    fetch (regDemo 0xD0 0x00 0 0) = some 0xD000 ∧
    ∃ s', step (regDemo 0xD0 0x00 0 0) false 0 = some (s', true) ∧
      ∀ R C, s'.display R C = (regDemo 0xD0 0x00 0 0).display R C :=
  ⟨by decide, _, rfl, fun _ _ => rfl⟩

/-- C14 amended. Display-changed signal: for every opcode other than `00E0` on
which `step` succeeds, the returned boolean is `true` exactly when the opcode
is a draw `DXYN`, whether or not a pixel changed; a display that differs after
the step gives `true`, and `false` means the display is unchanged. -/
theorem display_signal (s s' : Chip8) (inc_timer changed : Bool) (rnd opcode : Nat)
    (hop : fetch s = some opcode) (hE0 : opcode ≠ 0xE0)
    (hstep : step s inc_timer rnd = some (s', changed)) :
    (changed = true ↔ opcode / 4096 = 0xD) ∧
    ((∃ R C, s'.display R C ≠ s.display R C) → changed = true) ∧
    (changed = false → s'.display = s.display) := by
  rw [step_eq s inc_timer rnd opcode hop] at hstep
  cases hex : execute { s with pc := (s.pc + 2) % 65536 } opcode rnd with
  | none => rw [hex] at hstep; cases hstep
  | some res =>
    rw [hex] at hstep
    simp only [Option.map_some', Option.some.injEq, Prod.mk.injEq] at hstep
    obtain ⟨hs', hch⟩ := hstep
    subst hs'
    have hiff : changed = true ↔ opcode / 4096 = 0xD := by
      rw [← hch, opcode_family]
      simp
    have hkeep : changed = false → (tickTimers res inc_timer).display = s.display := by
      intro hf
      have hD : opcode >>> 12 ≠ 0xD := by
        rw [opcode_family]
        intro h
        rw [hiff.mpr h] at hf
        cases hf
      rw [(tickTimers_frame res inc_timer).2.2.2.2.2.2.1]
      have hdisp := execute_display _ _ _ _ hex hD hE0
      exact hdisp
    refine ⟨hiff, fun hdiff => ?_, hkeep⟩
    by_contra hne
    have hf : changed = false := by simpa using hne
    obtain ⟨R, C, hRC⟩ := hdiff
    rw [hkeep hf] at hRC
    exact hRC rfl

/-- Witness of C14: the draw `D124` of `drawDemo` changes pixel (30, 60) and
returns `true`; the load `6105` returns `false` and keeps the display. -/
theorem display_signal_witness :
    (∃ s', fetch drawDemo = some 0xD124 ∧ step drawDemo true 0 = some (s', true) ∧
      s'.display 30 60 ≠ drawDemo.display 30 60 ∧ (true = true ↔ 0xD124 / 4096 = 0xD)) ∧
    (∃ s', fetch (regDemo 0x61 0x05 0 0) = some 0x6105 ∧
      step (regDemo 0x61 0x05 0 0) true 0 = some (s', false) ∧
      s'.display = (regDemo 0x61 0x05 0 0).display) :=
  ⟨⟨_, by decide, rfl, by decide,
      (display_signal drawDemo _ true true 0 0xD124 (by decide) (by decide) rfl).1⟩,
    ⟨_, by decide, rfl,
      (display_signal (regDemo 0x61 0x05 0 0) _ true false 0 0x6105 (by decide) (by decide)
        rfl).2.2 rfl⟩⟩

/-- C15. Clear screen: from `pc ≤ 4094` with opcode `00E0`, `step` succeeds, all
32 x 64 pixels are `false`, `pc = old pc + 2`, memory, registers, `index_reg`,
stack, `sp` and keypad are unchanged, and each timer changes only by the tick
rule: it is lowered by 1 when `inc_timer` holds and it is not 0, and kept
otherwise. -/
theorem clear_screen (s : Chip8) (inc_timer : Bool) (rnd : Nat)
    (hpc : s.pc ≤ 4094) (hop : fetch s = some 0x00E0) :
    ∃ s' changed, step s inc_timer rnd = some (s', changed) ∧
      (∀ y x, y < 32 → x < 64 → s'.display y x = false) ∧
      s'.pc = s.pc + 2 ∧ s'.memory = s.memory ∧ s'.reg = s.reg ∧
      s'.index_reg = s.index_reg ∧ s'.stack = s.stack ∧ s'.sp = s.sp ∧
      s'.keypad = s.keypad ∧
      s'.delay_timer =
        (if inc_timer = true ∧ s.delay_timer > 0 then s.delay_timer - 1
          else s.delay_timer) ∧
      s'.sound_timer =
        (if inc_timer = true ∧ s.sound_timer > 0 then s.sound_timer - 1
          else s.sound_timer) := by
  rw [step_eq s inc_timer rnd _ hop]
  simp only [execute, opcode_family]
  refine ⟨_, _, rfl, ?_⟩
  obtain ⟨hm, hr, hi, hp, hs, hst, hd, hk⟩ := tickTimers_frame
    { s with
      pc := (s.pc + 2) % 65536
      display := fun y x => if y < 32 ∧ x < 64 then false else s.display y x } inc_timer
  refine ⟨fun y x hy hx => ?_, ?_, hm, hr, hi, hst, hs, hk, ?_, ?_⟩
  · rw [hd]
    show (if y < 32 ∧ x < 64 then false else s.display y x) = false
    rw [if_pos ⟨hy, hx⟩]
  · rw [hp]
    show (s.pc + 2) % 65536 = s.pc + 2
    omega
  · rw [tickTimers_eq]
  · rw [tickTimers_eq]

/-- Witness of C15 on `clearDemo`, whose timers are 2 and 0: after a ticked step
they are 1 and 0. -/
theorem clear_screen_witness :
    clearDemo.pc ≤ 4094 ∧ fetch clearDemo = some 0x00E0 ∧ clearDemo.display 5 5 = true ∧
    ∃ s' changed, step clearDemo true 0 = some (s', changed) ∧
      (∀ y x, y < 32 → x < 64 → s'.display y x = false) ∧
      s'.pc = clearDemo.pc + 2 ∧ s'.memory = clearDemo.memory ∧ s'.reg = clearDemo.reg ∧
      s'.index_reg = clearDemo.index_reg ∧ s'.stack = clearDemo.stack ∧
      s'.sp = clearDemo.sp ∧ s'.keypad = clearDemo.keypad ∧
      s'.delay_timer = 1 ∧ s'.sound_timer = 0 :=
  ⟨by decide, by decide, by decide, clear_screen clearDemo true 0 (by decide) (by decide)⟩

/-! ## Stack pointer -/

theorem execute_sp (chip res : Chip8) (opcode rnd : Nat)
    (h : execute chip opcode rnd = some res) :
    (opcode = 0xEE ∧ chip.sp < 16 ∧ res.sp = (chip.sp + 255) % 256) ∨
    (opcode >>> 12 = 2 ∧ res.sp < 16) ∨ res.sp = chip.sp := by
  unfold execute at h
  simp only at h
  split at h
  all_goals try (split at h)
  all_goals try (split at h)
  all_goals try (split at h)
  all_goals try (cases h; exact Or.inr (Or.inr rfl))
  all_goals try (cases h; done)
  · next h1 h2 => cases h; exact Or.inl ⟨h1, h2, rfl⟩
  · next h1 h2 => cases h; exact Or.inr (Or.inl ⟨h1, h2⟩)
  · exact Or.inr (Or.inr (drawSprite_frame _ _ _ _ _ h).sp_eq)
  · exact Or.inr (Or.inr (storeRegs_frame _ _ _ _ h).2.1)
  · exact Or.inr (Or.inr (loadRegs_frame _ _ _ _ h).2.1)

/-- C16 as stated fails on a return `00EE` at `sp = 0`: `step` succeeds and the
`uint8` decrement leaves `sp = 255`. -/
theorem stack_pointer_counterexample :
    (regDemo 0x00 0xEE 0 0).sp ≤ 15 ∧ fetch (regDemo 0x00 0xEE 0 0) = some 0x00EE ∧
    ∃ s', step (regDemo 0x00 0xEE 0 0) false 0 = some (s', false) ∧ s'.sp = 255 ∧
      ¬ s'.sp ≤ 15 :=
  ⟨by decide, by decide, _, rfl, by decide, by decide⟩

/-- C16 amended. Stack pointer: from `sp ≤ 15`, for every opcode except a
return `00EE` executed at `sp = 0`, `step` either halts or returns a state with
`sp ≤ 15`; a call `2NNN` at `sp = 15` halts, and a return at `1 ≤ sp ≤ 15`
succeeds with `sp` one less. -/
theorem stack_pointer_invariant (s : Chip8) (inc_timer : Bool) (rnd : Nat)
    (hsp : s.sp ≤ 15) (hnot : ¬ (fetch s = some 0x00EE ∧ s.sp = 0)) :
    (step s inc_timer rnd = none ∨
      ∃ s' changed, step s inc_timer rnd = some (s', changed) ∧ s'.sp ≤ 15) ∧
    (∀ NNN, NNN < 4096 → fetch s = some (0x2000 + NNN) → s.sp = 15 →
      step s inc_timer rnd = none) ∧
    (fetch s = some 0x00EE → ∃ s' changed, step s inc_timer rnd = some (s', changed) ∧
      s'.sp + 1 = s.sp) := by
  refine ⟨?_, fun NNN hN hop h15 => ?_, fun hop => ?_⟩
  · cases hstep : step s inc_timer rnd with
    | none => exact Or.inl rfl
    | some p =>
      obtain ⟨s', changed⟩ := p
      refine Or.inr ⟨s', changed, rfl, ?_⟩
      cases hop : fetch s with
      | none => simp only [step, hop] at hstep; cases hstep
      | some opcode =>
        rw [step_eq s inc_timer rnd opcode hop] at hstep
        cases hex : execute { s with pc := (s.pc + 2) % 65536 } opcode rnd with
        | none => rw [hex] at hstep; cases hstep
        | some res =>
          rw [hex] at hstep
          simp only [Option.map_some', Option.some.injEq, Prod.mk.injEq] at hstep
          obtain ⟨hs', _⟩ := hstep
          subst hs'
          rw [(tickTimers_frame res inc_timer).2.2.2.2.1]
          rcases execute_sp _ _ _ _ hex with ⟨hEE, _, hres⟩ | ⟨_, hres⟩ | hres
          · have h0 : s.sp ≠ 0 := fun h0 => hnot ⟨by rw [hop, hEE], h0⟩
            have hres2 : res.sp = (s.sp + 255) % 256 := hres
            omega
          · omega
          · have hres2 : res.sp = s.sp := hres
            omega
  · have h1 : (0x2000 + NNN) / 4096 = 2 := by omega
    have h2 : ¬ (s.sp + 1) % 256 < 16 := by omega
    rw [step_eq s inc_timer rnd _ hop]
    simp only [execute, opcode_family, h1, if_neg h2]
    rfl
  · have h0 : s.sp ≠ 0 := fun h0 => hnot ⟨hop, h0⟩
    have hlt : s.sp < 16 := by omega
    rw [step_return s inc_timer rnd hop hlt]
    refine ⟨_, _, rfl, ?_⟩
    rw [(tickTimers_frame _ inc_timer).2.2.2.2.1]
    show (s.sp + 255) % 256 + 1 = s.sp
    omega

/-- Witness of C16 on `callDemo`, at `sp = 0` and at `sp = 15`. -/
theorem stack_pointer_invariant_witness :
    callDemo.sp ≤ 15 ∧ ¬ (fetch callDemo = some 0x00EE ∧ callDemo.sp = 0) ∧
    (step callDemo true 0 = none ∨
      ∃ s' changed, step callDemo true 0 = some (s', changed) ∧ s'.sp ≤ 15) ∧
    step { callDemo with sp := 15 } true 0 = none :=
  ⟨by decide, by decide,
    (stack_pointer_invariant callDemo true 0 (by decide) (by decide)).1,
    (stack_pointer_invariant { callDemo with sp := 15 } true 0 (by decide) (by decide)).2.1
      0x300 (by decide) (by decide) rfl⟩

/-! ## Register store and load -/

theorem storeRegs_spec :
    ∀ (n i : Nat) (chip : Chip8), chip.index_reg + i + n ≤ 4096 →
      ∃ m, storeRegs n i chip = some { chip with memory := m } ∧
        ∀ j, m j = if chip.index_reg + i ≤ j ∧ j < chip.index_reg + i + n
          then chip.reg (j - chip.index_reg) else chip.memory j := by
  intro n
  induction n with
  | zero =>
    intro i chip _
    refine ⟨chip.memory, rfl, fun j => ?_⟩
    rw [if_neg (by omega)]
  | succ n ih =>
    intro i chip hlen
    have h1 : (chip.index_reg + i) % 65536 = chip.index_reg + i := by omega
    have h2 : (i + 1) % 65536 = i + 1 := by omega
    have h3 : chip.index_reg + i < 4096 := by omega
    obtain ⟨m, hm, hspec⟩ := ih (i + 1)
      { chip with memory := setAt chip.memory (chip.index_reg + i) (chip.reg i) }
      (by show chip.index_reg + (i + 1) + n ≤ 4096; omega)
    refine ⟨m, ?_, fun j => ?_⟩
    · simp only [storeRegs, h1, h2, if_pos h3]
      exact hm
    · rw [hspec j]
      show (if chip.index_reg + (i + 1) ≤ j ∧ j < chip.index_reg + (i + 1) + n
        then chip.reg (j - chip.index_reg)
        else setAt chip.memory (chip.index_reg + i) (chip.reg i) j) = _
      by_cases hj : j = chip.index_reg + i
      · subst hj
        rw [if_neg (by omega), if_pos (by omega), setAt_same]
        congr 1
        omega
      · rw [setAt_other _ _ _ _ hj]
        by_cases hr : chip.index_reg + (i + 1) ≤ j ∧ j < chip.index_reg + (i + 1) + n
        · rw [if_pos hr, if_pos (by omega)]
        · rw [if_neg hr, if_neg (by omega)]

theorem loadRegs_spec :
    ∀ (n i : Nat) (chip : Chip8), chip.index_reg + i + n ≤ 4096 →
      ∃ r, loadRegs n i chip = some { chip with reg := r } ∧
        ∀ j, r j = if i ≤ j ∧ j < i + n
          then chip.memory (chip.index_reg + j) else chip.reg j := by
  intro n
  induction n with
  | zero =>
    intro i chip _
    refine ⟨chip.reg, rfl, fun j => ?_⟩
    rw [if_neg (by omega)]
  | succ n ih =>
    intro i chip hlen
    have h1 : (chip.index_reg + i) % 65536 = chip.index_reg + i := by omega
    have h2 : (i + 1) % 65536 = i + 1 := by omega
    have h3 : chip.index_reg + i < 4096 := by omega
    obtain ⟨r, hr, hspec⟩ := ih (i + 1)
      { chip with reg := setAt chip.reg i (chip.memory (chip.index_reg + i)) }
      (by show chip.index_reg + (i + 1) + n ≤ 4096; omega)
    refine ⟨r, ?_, fun j => ?_⟩
    · simp only [loadRegs, h1, h2, if_pos h3]
      exact hr
    · rw [hspec j]
      show (if i + 1 ≤ j ∧ j < i + 1 + n then chip.memory (chip.index_reg + j)
        else setAt chip.reg i (chip.memory (chip.index_reg + i)) j) = _
      by_cases hj : j = i
      · subst hj
        rw [if_neg (by omega), if_pos (by omega), setAt_same]
      · rw [setAt_other _ _ _ _ hj]
        by_cases hr : i + 1 ≤ j ∧ j < i + 1 + n
        · rw [if_pos hr, if_pos (by omega)]
        · rw [if_neg hr, if_neg (by omega)]

theorem step_storeRegs (s : Chip8) (inc_timer : Bool) (rnd X : Nat) (hX : X < 16)
    (hop : fetch s = some (0xF055 + 256 * X)) (hidx : s.index_reg + X ≤ 4095) :
    ∃ m, step s inc_timer rnd
        = some (tickTimers { s with pc := (s.pc + 2) % 65536, memory := m } inc_timer, false) ∧
      ∀ j, m j = if s.index_reg ≤ j ∧ j ≤ s.index_reg + X
        then s.reg (j - s.index_reg) else s.memory j := by
  have h1 : (0xF055 + 256 * X) / 4096 = 15 := by omega
  have h2 : (0xF055 + 256 * X) % 256 = 0x55 := by omega
  have h3 : (0xF055 + 256 * X) / 256 % 16 = X := by omega
  obtain ⟨m, hm, hspec⟩ := storeRegs_spec (X + 1) 0 { s with pc := (s.pc + 2) % 65536 }
    (by show s.index_reg + 0 + (X + 1) ≤ 4096; omega)
  refine ⟨m, ?_, fun j => ?_⟩
  · rw [step_eq s inc_timer rnd _ hop]
    simp only [execute, opcode_family, opcode_X, opcode_NN, h1, h2, h3, hm]
    rfl
  · rw [hspec j]
    show (if s.index_reg + 0 ≤ j ∧ j < s.index_reg + 0 + (X + 1) then _ else _) = _
    by_cases hr : s.index_reg ≤ j ∧ j ≤ s.index_reg + X
    · rw [if_pos hr, if_pos (by omega)]
    · rw [if_neg hr, if_neg (by omega)]

theorem step_loadRegs (s : Chip8) (inc_timer : Bool) (rnd X : Nat) (hX : X < 16)
    (hop : fetch s = some (0xF065 + 256 * X)) (hidx : s.index_reg + X ≤ 4095) :
    ∃ r, step s inc_timer rnd
        = some (tickTimers { s with pc := (s.pc + 2) % 65536, reg := r } inc_timer, false) ∧
      ∀ j, r j = if j ≤ X then s.memory (s.index_reg + j) else s.reg j := by
  have h1 : (0xF065 + 256 * X) / 4096 = 15 := by omega
  have h2 : (0xF065 + 256 * X) % 256 = 0x65 := by omega
  have h3 : (0xF065 + 256 * X) / 256 % 16 = X := by omega
  obtain ⟨r, hr, hspec⟩ := loadRegs_spec (X + 1) 0 { s with pc := (s.pc + 2) % 65536 }
    (by show s.index_reg + 0 + (X + 1) ≤ 4096; omega)
  refine ⟨r, ?_, fun j => ?_⟩
  · rw [step_eq s inc_timer rnd _ hop]
    simp only [execute, opcode_family, opcode_X, opcode_NN, h1, h2, h3, hr]
    rfl
  · rw [hspec j]
    by_cases hj : j ≤ X
    · rw [if_pos hj, if_pos (by omega)]
    · rw [if_neg hj, if_neg (by omega)]

/-- C17. Register store/load round trip: for `X ≤ 15` with
`index_reg + X ≤ 4095`, `FX55` succeeds and keeps `index_reg`; when the next
opcode fetched is `FX65`, that step succeeds too and leaves every register
equal to its value before the `FX55`, `index_reg` unchanged,
`memory[index_reg + i] = reg[i]` for `i ≤ X`, and every other memory byte as
before the `FX55`. -/
theorem store_load_round_trip (s : Chip8) (inc1 inc2 : Bool) (rnd1 rnd2 X : Nat)
    (hX : X < 16) (hop : fetch s = some (0xF055 + 256 * X))
    (hidx : s.index_reg + X ≤ 4095) :
    ∃ s1 c1, step s inc1 rnd1 = some (s1, c1) ∧ s1.index_reg = s.index_reg ∧
      (fetch s1 = some (0xF065 + 256 * X) →
        ∃ s2 c2, step s1 inc2 rnd2 = some (s2, c2) ∧
          (∀ j, s2.reg j = s.reg j) ∧ s2.index_reg = s.index_reg ∧
          (∀ i, i ≤ X → s2.memory (s.index_reg + i) = s.reg i) ∧
          (∀ j, ¬ (s.index_reg ≤ j ∧ j ≤ s.index_reg + X) → s2.memory j = s.memory j)) := by
  obtain ⟨m, hstep1, hm⟩ := step_storeRegs s inc1 rnd1 X hX hop hidx
  obtain ⟨hm1, hr1, hi1, _⟩ := tickTimers_frame
    { s with pc := (s.pc + 2) % 65536, memory := m } inc1
  refine ⟨_, _, hstep1, hi1, fun hop2 => ?_⟩
  generalize tickTimers { s with pc := (s.pc + 2) % 65536, memory := m } inc1 = s1
    at hm1 hr1 hi1 hop2
  simp only at hm1 hr1 hi1
  obtain ⟨r, hstep2, hr⟩ := step_loadRegs s1 inc2 rnd2 X hX hop2 (by rw [hi1]; omega)
  obtain ⟨hm2, hr2, hi2, _⟩ := tickTimers_frame
    { s1 with pc := (s1.pc + 2) % 65536, reg := r } inc2
  refine ⟨_, _, hstep2, fun j => ?_, hi2.trans hi1, fun i hi => ?_, fun j hj => ?_⟩
  · rw [hr2]
    show r j = s.reg j
    rw [hr j, hr1, hm1, hi1]
    by_cases hj : j ≤ X
    · rw [if_pos hj, hm (s.index_reg + j), if_pos (by omega)]
      congr 1
      omega
    · rw [if_neg hj]
  · rw [hm2]
    show s1.memory (s.index_reg + i) = s.reg i
    rw [hm1, hm (s.index_reg + i), if_pos (by omega)]
    congr 1
    omega
  · rw [hm2]
    show s1.memory j = s.memory j
    rw [hm1, hm j, if_neg hj]

/-- Witness of C17 on `storeDemo`. -/
theorem store_load_round_trip_witness :
    fetch storeDemo = some (0xF055 + 256 * 2) ∧ storeDemo.index_reg + 2 ≤ 4095 ∧
    ∃ s1 c1 s2 c2, step storeDemo true 0 = some (s1, c1) ∧
      fetch s1 = some (0xF065 + 256 * 2) ∧ step s1 true 0 = some (s2, c2) ∧
      (∀ j, s2.reg j = storeDemo.reg j) ∧ s2.index_reg = storeDemo.index_reg ∧
      (∀ i, i ≤ 2 → s2.memory (storeDemo.index_reg + i) = storeDemo.reg i) ∧
      (∀ j, ¬ (storeDemo.index_reg ≤ j ∧ j ≤ storeDemo.index_reg + 2) →
        s2.memory j = storeDemo.memory j) := by
  refine ⟨by decide, by decide, ?_⟩
  obtain ⟨s1, c1, hstep1, _, hrest⟩ := store_load_round_trip storeDemo true true 0 0 2
    (by decide) (by decide) (by decide)
  have hf : fetch s1 = some (0xF065 + 256 * 2) := by
    have hs : step storeDemo true 0 = some ((step storeDemo true 0).getD (storeDemo, false)) :=
      rfl
    rw [hs] at hstep1
    cases hstep1
    rfl
  obtain ⟨s2, c2, hstep2, h⟩ := hrest hf
  exact ⟨s1, c1, s2, c2, hstep1, hf, hstep2, h⟩

/-! ## Sprite source addresses -/

theorem drawRows_none (x_min y_min : Nat) :
    ∀ (n r0 : Nat) (chip : Chip8),
      (∃ r, r0 ≤ r ∧ r < r0 + n ∧ 4096 ≤ chip.index_reg + r) →
      drawRows x_min y_min n (y_min + r0) chip = none := by
  intro n
  induction n with
  | zero =>
    rintro r0 chip ⟨r, h1, h2, _⟩
    omega
  | succ n ih =>
    rintro r0 chip ⟨r, h1, h2, h3⟩
    have hsub : y_min + r0 - y_min = r0 := by omega
    simp only [drawRows, hsub]
    by_cases hin : chip.index_reg + r0 < 4096
    · rw [if_pos hin]
      have hfr := drawRow_frame (chip.memory (chip.index_reg + r0)) (y_min + r0) x_min 8 0 chip
      have hne : r ≠ r0 := by rintro rfl; omega
      exact ih (r0 + 1) _ ⟨r, by omega, by omega, by rw [hfr.index_reg_eq]; exact h3⟩
    · rw [if_neg hin]

theorem step_draw_none (s : Chip8) (inc_timer : Bool) (rnd opcode : Nat)
    (hop : fetch s = some opcode) (hfam : opcode / 4096 = 13)
    (hN : 1 ≤ opcode % 16) (hmem : 4096 < s.index_reg + opcode % 16) :
    step s inc_timer rnd = none := by
  have h16 : opcode % 16 < 16 := Nat.mod_lt _ (by decide)
  have hnone := drawRows_none (setAt s.reg 15 0 (opcode / 256 % 16))
    (setAt s.reg 15 0 (opcode / 16 % 16)) (opcode % 16) 0
    { s with pc := (s.pc + 2) % 65536, reg := setAt s.reg 15 0 }
    ⟨opcode % 16 - 1, by omega, by omega, by show 4096 ≤ s.index_reg + _; omega⟩
  have hex : execute { s with pc := (s.pc + 2) % 65536 } opcode rnd = none := by
    simp only [execute, opcode_family, opcode_X, opcode_Y, opcode_N, hfam, drawSprite]
    exact hnone
  rw [step_eq s inc_timer rnd _ hop, hex]
  rfl

/-- C18 as stated fails on `D002` with `index_reg = 4095`: the second sprite
row would be read at address 4096, the address is not wrapped, and `step`
halts. -/
theorem draw_source_counterexample :
    fetch { regDemo 0xD0 0x02 0 0 with index_reg := 4095 } = some 0xD002 ∧
    4096 < ({ regDemo 0xD0 0x02 0 0 with index_reg := 4095 } : Chip8).index_reg + 2 ∧
    step { regDemo 0xD0 0x02 0 0 with index_reg := 4095 } false 0 = none :=
  ⟨by decide, by decide, rfl⟩

/-- C18 amended. Draw-sprite source addresses: for an opcode `DXYN` with
`index_reg + N ≤ 4096`, `step` succeeds and sprite row `r` is the byte
`memory[index_reg + r]` for every `r < N` (a pixel changes exactly when its
bit of that byte is set); with `N ≥ 1` and `index_reg + N > 4096` the address
is not wrapped and `step` halts. -/
theorem draw_source_rows (s : Chip8) (inc_timer : Bool) (rnd X Y N : Nat)
    (hX : X < 16) (hY : Y < 16) (hN : N < 16)
    (hop : fetch s = some (0xD000 + 256 * X + 16 * Y + N)) :
    (s.index_reg + N ≤ 4096 →
      ∃ s' changed, step s inc_timer rnd = some (s', changed) ∧
        ∀ R C, s'.display R C ≠ s.display R C ↔
          ∃ r c, r < N ∧ c < 8 ∧ R = (setAt s.reg 15 0 Y + r) % 32 ∧
            C = (setAt s.reg 15 0 X + c) % 64 ∧
            (s.memory (s.index_reg + r)).testBit (7 - c) = true) ∧
    (1 ≤ N → 4096 < s.index_reg + N → step s inc_timer rnd = none) := by
  have h1 : (0xD000 + 256 * X + 16 * Y + N) / 4096 = 13 := by omega
  have h2 : (0xD000 + 256 * X + 16 * Y + N) % 16 = N := by omega
  have h3 : (0xD000 + 256 * X + 16 * Y + N) / 256 % 16 = X := by omega
  have h4 : (0xD000 + 256 * X + 16 * Y + N) / 16 % 16 = Y := by omega
  constructor
  · intro hmem
    obtain ⟨res, hstep, _, hdisp, _, _⟩ := step_draw s inc_timer rnd _ hop h1 (by omega)
    rw [h2, h3, h4] at hdisp
    refine ⟨_, _, hstep, fun R C => ?_⟩
    rw [(tickTimers_frame res inc_timer).2.2.2.2.2.2.1]
    exact hdisp R C
  · intro hN1 hmem
    exact step_draw_none s inc_timer rnd _ hop h1 (by omega) (by omega)

/-- Witness of C18 on `drawDemo`, in range and with `index_reg = 4093`. -/
theorem draw_source_rows_witness :
    fetch drawDemo = some (0xD000 + 256 * 1 + 16 * 2 + 4) ∧ drawDemo.index_reg + 4 ≤ 4096 ∧
    (∃ s' changed, step drawDemo true 0 = some (s', changed) ∧
      ∀ R C, s'.display R C ≠ drawDemo.display R C ↔
        ∃ r c, r < 4 ∧ c < 8 ∧ R = (setAt drawDemo.reg 15 0 2 + r) % 32 ∧
          C = (setAt drawDemo.reg 15 0 1 + c) % 64 ∧
          (drawDemo.memory (drawDemo.index_reg + r)).testBit (7 - c) = true) ∧
    step { drawDemo with index_reg := 4093 } true 0 = none :=
  ⟨by decide, by decide,
    (draw_source_rows drawDemo true 0 1 2 4 (by decide) (by decide) (by decide)
      (by decide)).1 (by decide),
    (draw_source_rows { drawDemo with index_reg := 4093 } true 0 1 2 4 (by decide) (by decide)
      (by decide) (by decide)).2 (by decide) (by decide)⟩

/-! ## Shifts -/

/-- C19. Shifts lose no bit: for `X ≠ 15`, after `8XY6` the old `reg[X]` is
`2 * new reg[X] + new reg[15]`, and after `8XYE` twice the old `reg[X]` is
`256 * new reg[15] + new reg[X]`; in both cases the new `reg[15]` is 0 or 1
and every register other than `reg[X]` and `reg[15]` is unchanged. -/
theorem shifts_lose_no_bit (s : Chip8) (inc_timer : Bool) (rnd X Y : Nat)
    (hX : X < 16) (hY : Y < 16) (hwt : WellTyped s) (hX15 : X ≠ 15) :
    (fetch s = some (0x8006 + 256 * X + 16 * Y) →
      ∃ s' changed, step s inc_timer rnd = some (s', changed) ∧
        s.reg X = 2 * s'.reg X + s'.reg 15 ∧ (s'.reg 15 = 0 ∨ s'.reg 15 = 1) ∧
        ∀ j, j ≠ X → j ≠ 15 → s'.reg j = s.reg j) ∧
    (fetch s = some (0x800E + 256 * X + 16 * Y) →
      ∃ s' changed, step s inc_timer rnd = some (s', changed) ∧
        2 * s.reg X = 256 * s'.reg 15 + s'.reg X ∧ (s'.reg 15 = 0 ∨ s'.reg 15 = 1) ∧
        ∀ j, j ≠ X → j ≠ 15 → s'.reg j = s.reg j) := by
  have hx := hwt.reg_lt X
  constructor
  · intro hop
    have h1 : (0x8006 + 256 * X + 16 * Y) / 4096 = 8 := by omega
    have h2 : (0x8006 + 256 * X + 16 * Y) % 16 = 6 := by omega
    have h3 : (0x8006 + 256 * X + 16 * Y) / 256 % 16 = X := by omega
    rw [step_eq s inc_timer rnd _ hop]
    simp only [execute, opcode_family, opcode_X, opcode_N, h1, h2, h3]
    refine ⟨_, _, rfl, ?_⟩
    rw [(tickTimers_frame _ inc_timer).2.1]
    have e15 : setAt (setAt s.reg 15 (s.reg X &&& 1)) X
        (setAt s.reg 15 (s.reg X &&& 1) X >>> 1) 15 = s.reg X % 2 := by
      rw [setAt_other _ _ _ _ (Ne.symm hX15), setAt_same, Nat.and_one_is_mod]
    have eX : setAt (setAt s.reg 15 (s.reg X &&& 1)) X
        (setAt s.reg 15 (s.reg X &&& 1) X >>> 1) X = s.reg X / 2 := by
      rw [setAt_same, setAt_other _ _ _ _ hX15, Nat.shiftRight_eq_div_pow]
    refine ⟨?_, ?_, fun j hjX hj15 => ?_⟩
    · show s.reg X = 2 * setAt _ X _ X + setAt _ X _ 15
      rw [e15, eX]; omega
    · show setAt _ X _ 15 = 0 ∨ setAt _ X _ 15 = 1
      rw [e15]; omega
    · show setAt (setAt s.reg 15 _) X _ j = s.reg j
      rw [setAt_other _ _ _ _ hjX, setAt_other _ _ _ _ hj15]
  · intro hop
    have h1 : (0x800E + 256 * X + 16 * Y) / 4096 = 8 := by omega
    have h2 : (0x800E + 256 * X + 16 * Y) % 16 = 0xE := by omega
    have h3 : (0x800E + 256 * X + 16 * Y) / 256 % 16 = X := by omega
    rw [step_eq s inc_timer rnd _ hop]
    simp only [execute, opcode_family, opcode_X, opcode_N, h1, h2, h3]
    refine ⟨_, _, rfl, ?_⟩
    rw [(tickTimers_frame _ inc_timer).2.1]
    have e15 : setAt (setAt s.reg 15 (s.reg X >>> 7)) X
        (setAt s.reg 15 (s.reg X >>> 7) X <<< 1 % 256) 15 = s.reg X / 128 := by
      rw [setAt_other _ _ _ _ (Ne.symm hX15), setAt_same, Nat.shiftRight_eq_div_pow]
    have eX : setAt (setAt s.reg 15 (s.reg X >>> 7)) X
        (setAt s.reg 15 (s.reg X >>> 7) X <<< 1 % 256) X = (s.reg X * 2) % 256 := by
      rw [setAt_same, setAt_other _ _ _ _ hX15, Nat.shiftLeft_eq]
    refine ⟨?_, ?_, fun j hjX hj15 => ?_⟩
    · show 2 * s.reg X = 256 * setAt _ X _ 15 + setAt _ X _ X
      rw [e15, eX]; omega
    · show setAt _ X _ 15 = 0 ∨ setAt _ X _ 15 = 1
      rw [e15]; omega
    · show setAt (setAt s.reg 15 _) X _ j = s.reg j
      rw [setAt_other _ _ _ _ hjX, setAt_other _ _ _ _ hj15]

/-- Witness of C19 on `8126` and `812E` with `reg[1] = 0xB5`. -/
theorem shifts_lose_no_bit_witness :
    WellTyped (regDemo 0x81 0x26 0xB5 9) ∧ WellTyped (regDemo 0x81 0x2E 0xB5 9) ∧
    (∃ s' changed, step (regDemo 0x81 0x26 0xB5 9) true 0 = some (s', changed) ∧
      (regDemo 0x81 0x26 0xB5 9).reg 1 = 2 * s'.reg 1 + s'.reg 15 ∧
      (s'.reg 15 = 0 ∨ s'.reg 15 = 1) ∧
      ∀ j, j ≠ 1 → j ≠ 15 → s'.reg j = (regDemo 0x81 0x26 0xB5 9).reg j) ∧
    (∃ s' changed, step (regDemo 0x81 0x2E 0xB5 9) true 0 = some (s', changed) ∧
      2 * (regDemo 0x81 0x2E 0xB5 9).reg 1 = 256 * s'.reg 15 + s'.reg 1 ∧
      (s'.reg 15 = 0 ∨ s'.reg 15 = 1) ∧
      ∀ j, j ≠ 1 → j ≠ 15 → s'.reg j = (regDemo 0x81 0x2E 0xB5 9).reg j) :=
  ⟨wellTyped_regDemo _ _ _ _ (by decide) (by decide) (by decide) (by decide),
    wellTyped_regDemo _ _ _ _ (by decide) (by decide) (by decide) (by decide),
    (shifts_lose_no_bit (regDemo 0x81 0x26 0xB5 9) true 0 1 2 (by decide) (by decide)
      (wellTyped_regDemo _ _ _ _ (by decide) (by decide) (by decide) (by decide))
      (by decide)).1 (by decide),
    (shifts_lose_no_bit (regDemo 0x81 0x2E 0xB5 9) true 0 1 2 (by decide) (by decide)
      (wellTyped_regDemo _ _ _ _ (by decide) (by decide) (by decide) (by decide))
      (by decide)).2 (by decide)⟩

/-! ## Draw-sprite with the flag register as a coordinate -/

theorem setAt_idem {α : Type} (a : Nat → α) (i : Nat) (v : α) :
    setAt (setAt a i v) i v = setAt a i v := by
  funext j
  simp only [setAt]
  split <;> rfl

theorem step_draw_eq (s : Chip8) (inc_timer : Bool) (rnd opcode : Nat)
    (hop : fetch s = some opcode) (hfam : opcode / 4096 = 13) :
    step s inc_timer rnd =
      (drawRows (setAt s.reg 15 0 (opcode / 256 % 16)) (setAt s.reg 15 0 (opcode / 16 % 16))
        (opcode % 16) (setAt s.reg 15 0 (opcode / 16 % 16))
        { s with pc := (s.pc + 2) % 65536, reg := setAt s.reg 15 0 }).map
        (fun chip => (tickTimers chip inc_timer, true)) := by
  rw [step_eq s inc_timer rnd _ hop]
  simp only [execute, opcode_family, opcode_X, opcode_Y, opcode_N, hfam, drawSprite]
  rfl

/-- C20. Draw-sprite with `reg[15]` as a coordinate: since `reg[15]` is cleared
before the coordinates are read, a step on `DXYN` is the step from the state
whose `reg[15]` was 0 beforehand; for `X = 15` the draw loop runs with left
column 0 and, when the sprite is in range, the changed pixels are in columns
`c < 8` at offset 0; for `Y = 15` likewise with top row 0. -/
theorem draw_flag_coordinate (s : Chip8) (inc_timer : Bool) (rnd X Y N : Nat)
    (hX : X < 16) (hY : Y < 16) (hN : N < 16)
    (hop : fetch s = some (0xD000 + 256 * X + 16 * Y + N)) :
    step s inc_timer rnd = step { s with reg := setAt s.reg 15 0 } inc_timer rnd ∧
    (X = 15 → step s inc_timer rnd =
      (drawRows 0 (setAt s.reg 15 0 Y) N (setAt s.reg 15 0 Y)
        { s with pc := (s.pc + 2) % 65536, reg := setAt s.reg 15 0 }).map
        (fun chip => (tickTimers chip inc_timer, true))) ∧
    (Y = 15 → step s inc_timer rnd =
      (drawRows (setAt s.reg 15 0 X) 0 N 0
        { s with pc := (s.pc + 2) % 65536, reg := setAt s.reg 15 0 }).map
        (fun chip => (tickTimers chip inc_timer, true))) ∧
    (s.index_reg + N ≤ 4096 →
      ∃ s' changed, step s inc_timer rnd = some (s', changed) ∧
        (X = 15 → ∀ R C, s'.display R C ≠ s.display R C ↔
          ∃ r c, r < N ∧ c < 8 ∧ R = (setAt s.reg 15 0 Y + r) % 32 ∧ C = c ∧
            (s.memory (s.index_reg + r)).testBit (7 - c) = true) ∧
        (Y = 15 → ∀ R C, s'.display R C ≠ s.display R C ↔
          ∃ r c, r < N ∧ c < 8 ∧ R = r ∧ C = (setAt s.reg 15 0 X + c) % 64 ∧
            (s.memory (s.index_reg + r)).testBit (7 - c) = true)) := by
  have h1 : (0xD000 + 256 * X + 16 * Y + N) / 4096 = 13 := by omega
  have h2 : (0xD000 + 256 * X + 16 * Y + N) % 16 = N := by omega
  have h3 : (0xD000 + 256 * X + 16 * Y + N) / 256 % 16 = X := by omega
  have h4 : (0xD000 + 256 * X + 16 * Y + N) / 16 % 16 = Y := by omega
  have heq := step_draw_eq s inc_timer rnd _ hop h1
  rw [h2, h3, h4] at heq
  refine ⟨?_, fun hX15 => ?_, fun hY15 => ?_, fun hmem => ?_⟩
  · have hop0 : fetch { s with reg := setAt s.reg 15 0 } = some (0xD000 + 256 * X + 16 * Y + N) := by
      rw [← hop]
      exact fetch_congr _ _ rfl rfl
    have heq0 := step_draw_eq { s with reg := setAt s.reg 15 0 } inc_timer rnd _ hop0 h1
    rw [h2, h3, h4] at heq0
    simp only [setAt_idem] at heq0
    rw [heq, heq0]
  · rw [heq, hX15, setAt_same]
  · rw [heq, hY15, setAt_same]
  · obtain ⟨res, hstep, _, hdisp, _, _⟩ := step_draw s inc_timer rnd _ hop h1 (by omega)
    rw [h2, h3, h4] at hdisp
    have hd : (tickTimers res inc_timer).display = res.display :=
      (tickTimers_frame res inc_timer).2.2.2.2.2.2.1
    refine ⟨_, _, hstep, fun hX15 R C => ?_, fun hY15 R C => ?_⟩
    · rw [hd, hdisp R C, hX15, setAt_same]
      constructor
      · rintro ⟨r, c, hr, hc, hR, hC, hb⟩
        exact ⟨r, c, hr, hc, hR, by omega, hb⟩
      · rintro ⟨r, c, hr, hc, hR, hC, hb⟩
        exact ⟨r, c, hr, hc, hR, by omega, hb⟩
    · rw [hd, hdisp R C, hY15, setAt_same]
      constructor
      · rintro ⟨r, c, hr, hc, hR, hC, hb⟩
        exact ⟨r, c, hr, hc, by omega, hC, hb⟩
      · rintro ⟨r, c, hr, hc, hR, hC, hb⟩
        exact ⟨r, c, hr, hc, by omega, hC, hb⟩

/-- Witness of C20 on `DF13` with `reg[15] = 9`. -/
theorem draw_flag_coordinate_witness :
    fetch { regDemo 0xDF 0x13 5 9 with index_reg := 0x200 }
      = some (0xD000 + 256 * 15 + 16 * 1 + 3) ∧
    step { regDemo 0xDF 0x13 5 9 with index_reg := 0x200 } true 0
      = step { regDemo 0xDF 0x13 5 9 with
          index_reg := 0x200, reg := setAt (regDemo 0xDF 0x13 5 9).reg 15 0 } true 0 ∧
    ∃ s' changed, step { regDemo 0xDF 0x13 5 9 with index_reg := 0x200 } true 0
        = some (s', changed) ∧
      ∀ R C, s'.display R C ≠ (regDemo 0xDF 0x13 5 9).display R C ↔
        ∃ r c, r < 3 ∧ c < 8 ∧ R = (setAt (regDemo 0xDF 0x13 5 9).reg 15 0 1 + r) % 32 ∧
          C = c ∧ ((regDemo 0xDF 0x13 5 9).memory (0x200 + r)).testBit (7 - c) = true := by
  have h := draw_flag_coordinate { regDemo 0xDF 0x13 5 9 with index_reg := 0x200 } true 0 15 1 3
    (by decide) (by decide) (by decide) (by decide)
  obtain ⟨s', changed, hstep, hcol, _⟩ := h.2.2.2 (by decide)
  exact ⟨by decide, h.1, s', changed, hstep, hcol rfl⟩

end Emulator
